import Mathlib

/-!
Shallow embedding of the mela-tools record codecs (melatools/record.py,
melatools/rsd.py, melatools/msb.py, melatools/par.py) and proofs about them.

Python floats are embedded as rationals: every operation the embedded code
performs on floats (copying, equality tests, comparison with 0, negation,
truncation to integer) is exact on IEEE doubles, so the rational embedding is
faithful for these code paths.  Python exceptions are embedded as `Except`
errors.  Mutable streams are embedded as explicit list/cursor state.
-/

namespace Mela

/-- Decidable equality of results, for checking concrete runs. -/
instance {ε α : Type} [DecidableEq ε] [DecidableEq α] : DecidableEq (Except ε α) := fun a b =>
  match a, b with
  | .ok x, .ok y =>
      if h : x = y then .isTrue (by rw [h]) else .isFalse (by intro hc; cases hc; exact h rfl)
  | .error x, .error y =>
      if h : x = y then .isTrue (by rw [h]) else .isFalse (by intro hc; cases hc; exact h rfl)
  | .ok _, .error _ => .isFalse (by intro hc; cases hc)
  | .error _, .ok _ => .isFalse (by intro hc; cases hc)

/-- Python `int(f)` on a float: truncation toward zero. -/
def pyInt (q : ℚ) : Int := if q < 0 then ⌈q⌉ else ⌊q⌋

/-- Python index normalization for slices `l[i:]` / `l[:i]`: a negative index
counts from the end, and the result is clamped to `[0, len]`. -/
def pyIdx (len : Nat) (i : Int) : Nat := if 0 ≤ i then i.toNat else ((len : Int) + i).toNat

/-! ## melatools/var.py -/

/-- `Var` from var.py: a variable with a numeric id and a display name. -/
structure Var where
  id : Int
  name : String
deriving DecidableEq, Repr

/-- `get_var` from var.py on the numeric path: for a number `x` it returns
`Var(int(x), f"var{x}")`.  The DNF decoder always calls it with an `int`. -/
def get_var (x : Int) : Var := ⟨x, "var" ++ toString x⟩

/-! ## melatools/par.py : DNF condition codec -/

/-- A constraint term: either a literal float or a closed range `(low, high)`
(a Python number or 2-tuple in `Constraint.values`). -/
inductive CValue where
  | lit (v : ℚ)
  | range (lo hi : ℚ)
deriving DecidableEq, Repr

/-- `Constraint` from par.py: binds one variable to a list of terms. -/
structure Constraint where
  var : Var
  values : List CValue
deriving DecidableEq, Repr

/-- Float emission of one term inside `Constraint.to_floats`: a literal is one
float, a range `(lo, hi)` is emitted as `lo, -hi`. -/
def termFloats : CValue → List ℚ
  | .lit v => [v]
  | .range lo hi => [lo, -hi]

/-- `Constraint.to_floats` from par.py: `out = [var.id, terms...]`, returned as
`[len(out), *out]`. -/
def Constraint.to_floats (c : Constraint) : List ℚ :=
  let out : List ℚ := (c.var.id : ℚ) :: (c.values.map termFloats).flatten
  ((out.length : ℚ)) :: out

/-- `DNFCondition` from par.py: an OR of groups, each group an AND of
constraints. -/
structure DNFCondition where
  groups : List (List Constraint)
deriving DecidableEq, Repr

/-- `DNFCondition.to_floats` from par.py: an empty condition is `[0]`;
otherwise the first group's constraint floats, then for every later group a
`0` separator followed by its constraint floats. -/
def DNFCondition.to_floats (d : DNFCondition) : List ℚ :=
  match d.groups with
  | [] => [0]
  | g :: gs =>
      (g.map Constraint.to_floats).flatten
        ++ (gs.map (fun g2 => (0 : ℚ) :: (g2.map Constraint.to_floats).flatten)).flatten

/-- The inner `while len(cst) > 0` loop of `DNFCondition.from_floats`: splits a
constraint's trailing floats into literals and `(low, -high)` range pairs by
sign-inspecting the second element of each candidate pair. -/
def parseTerms : List ℚ → List CValue
  | [] => []
  | [x] => [.lit x]
  | x :: y :: rest => if y < 0 then .range x (-y) :: parseTerms rest else .lit x :: parseTerms (y :: rest)

/-- The inner `while len(args) > 0` group loop of `DNFCondition.from_floats`:
reads `n`-prefixed constraint blocks until a lone `0` (group separator, which
is consumed) or end of input.  Returns the accumulated group and the remaining
floats.  `.error` models the `IndexError` Python raises when the count is
followed by no variable id.  `pyInt q` is the local `nv` of the source; the
slices `args[1:nv]` and `args[nv:]` are the `take`/`drop` below.  Every
iteration consumes at least the leading count float, so the loop runs at most
`length` times; the structural fuel argument (always called with
`length + 1`) only bounds the recursion and its exhaustion branch is
unreachable. -/
def groupLoop : Nat → List ℚ → List Constraint → Except String (List Constraint × List ℚ)
  | 0, _, _ => .error "loop bound exhausted"
  | _ + 1, [], group => .ok (group, [])
  | fuel + 1, q :: args, group =>
    if pyInt q = 0 then .ok (group, args)
    else
      match args.head? with
      | Option.none => .error "IndexError: list index out of range"
      | some v =>
        groupLoop fuel (args.drop (pyIdx args.length (pyInt q)))
          (group ++ [⟨get_var (pyInt v), parseTerms ((args.take (pyIdx args.length (pyInt q))).drop 1)⟩])

/-- The outer `while len(args) > 0` loop of `DNFCondition.from_floats`:
repeatedly reads one group; an empty group (input that begins with a `0`
separator or runs out) is not appended.  Each iteration consumes at least one
float, so as with `groupLoop` the fuel (always `length + 1`) never runs out. -/
def dnfLoop : Nat → List ℚ → Except String (List (List Constraint))
  | 0, _ => .error "loop bound exhausted"
  | _ + 1, [] => .ok []
  | fuel + 1, q :: args =>
    match groupLoop ((q :: args).length + 1) (q :: args) [] with
    | .error e => .error e
    | .ok (group, rest) =>
      match dnfLoop fuel rest with
      | .error e => .error e
      | .ok gs => .ok (if group.isEmpty then gs else group :: gs)

/-- `DNFCondition.from_floats` from par.py. -/
def DNFCondition.from_floats (args : List ℚ) : Except String DNFCondition :=
  (dnfLoop (args.length + 1) args).map DNFCondition.mk

/-- A term in the sign-unambiguous canonical form the decoder can re-read:
literals are nonnegative (a negative float in second position would be read
as a negated range bound) and range bounds are `0 ≤ lo` with `0 < hi` (so
`-hi` is negative and is read back as a range). -/
def CValue.canonical : CValue → Bool
  | .lit v => decide (0 ≤ v)
  | .range lo hi => decide (0 ≤ lo) && decide (0 < hi)

/-- A constraint whose variable is the canonical lookup result for its id and
whose terms are sign-unambiguous. -/
def Constraint.canonical (c : Constraint) : Bool :=
  decide (c.var = get_var c.var.id) && c.values.all CValue.canonical

/-- A condition with no empty groups and only canonical constraints. -/
def DNFCondition.canonical (d : DNFCondition) : Bool :=
  d.groups.all (fun g => !g.isEmpty && g.all Constraint.canonical)

/-! ## melatools/record.py : declarative field framework

A record attribute holds a Python value: `None`, a bool, or a number.  The
`FpStream` of the source is embedded as the list of floats still to be read
(reads fail on an empty list, mirroring the "Buffer overrun" error). -/

/-- A Python attribute value as stored on a record: `None`, a bool (from
`BoolValue.decode`) or a number. -/
inductive PyVal where
  | none
  | bool (b : Bool)
  | num (q : ℚ)
deriving DecidableEq, Repr

/-- Python `==` on attribute values (`True == 1` holds in Python). -/
def pyEq : PyVal → PyVal → Bool
  | .none, .none => true
  | .none, _ => false
  | _, .none => false
  | .bool a, .bool b => a = b
  | .bool a, .num q => (if a then (1 : ℚ) else 0) = q
  | .num q, .bool a => (if a then (1 : ℚ) else 0) = q
  | .num p, .num q => p = q

/-- Python truthiness of an attribute value (`v and 1 or 0`). -/
def pyTruthy : PyVal → Bool
  | .none => false
  | .bool b => b
  | .num q => q ≠ 0

/-- Python `float(v)` as used by `FpStream.write`: fails (TypeError) on
`None`, converts a bool to 1/0, keeps a number. -/
def pyFloat : PyVal → Except String ℚ
  | .none => .error "TypeError: float() argument must not be None"
  | .bool b => .ok (if b then 1 else 0)
  | .num q => .ok q

/-- The field variants of record.py.  `EnumValue` is omitted: no record in the
repository uses it (the source itself reserves it for future schemas). -/
inductive Field where
  | Value
  | IntValue
  | BoolValue
  | Constant (v : ℚ)
  | AnyReserved
  | Optional (f : Field)
deriving DecidableEq, Repr

/-- `Field.decode` from record.py over the list-of-floats stream.  A returned
`PyVal.none` means the attribute is left at its default (`Record.decode` only
calls `setattr` for non-`None` results, and every rsd/par field default is
`None`). -/
def Field.decode : Field → List ℚ → Except String (PyVal × List ℚ)
  | _, [] => .error "Buffer overrun"
  | .Value, q :: s => .ok (.num q, s)
  | .IntValue, q :: s =>
      if (pyInt q : ℚ) = q then .ok (.num ((pyInt q : ℚ)), s)
      else .error "Non-integer floating point"
  | .BoolValue, q :: s => .ok (.bool (q = 1), s)
  | .Constant v, q :: s => if q = v then .ok (.none, s) else .error "Constant mismatch"
  | .AnyReserved, _ :: s => .ok (.none, s)
  | .Optional f, q :: s => if q = 0 then .ok (.none, s) else f.decode (q :: s)

/-- `Field.encode` from record.py: the floats the field appends to the output
stream for a given attribute value. -/
def Field.encode : Field → PyVal → Except String (List ℚ)
  | .Value, v => (pyFloat v).map (fun q => [q])
  | .IntValue, v => (pyFloat v).map (fun q => [q])
  | .BoolValue, v => .ok [if pyTruthy v then 1 else 0]
  | .Constant c, v =>
      if v ≠ .none ∧ ¬ pyEq v (.num c) then .error "Constant mismatch"
      else .ok [c]
  | .AnyReserved, _ => .ok [0]
  | .Optional f, v => if v = .none then .ok [0] else f.encode v

/-- `Record.decode` from record.py over an explicit field list: decodes each
field in order; a field returning `None` leaves the slot at its default
(`PyVal.none`).  Returns the record's slots in schema order plus the leftover
stream. -/
def decodeFields : List Field → List ℚ → Except String (List PyVal × List ℚ)
  | [], s => .ok ([], s)
  | f :: fs, s =>
    match f.decode s with
    | .error e => .error ("Failed to decode field: " ++ e)
    | .ok (v, s') =>
      match decodeFields fs s' with
      | .error e => .error e
      | .ok (vs, s'') => .ok (v :: vs, s'')

/-- `Record.encode` from record.py: encodes each field of the schema from the
record's slot values (`getattr(self, name, None)` is the `headD .none`). -/
def encodeFields : List Field → List PyVal → Except String (List ℚ)
  | [], _ => .ok []
  | f :: fs, vs =>
    match f.encode (vs.headD .none) with
    | .error e => .error e
    | .ok out =>
      match encodeFields fs vs.tail with
      | .error e => .error e
      | .ok rest => .ok (out ++ rest)

/-- A slot value that satisfies its field's schema, so that encoding writes it
and decoding reads it back unchanged: a number for `Value`, an integral
number for `IntValue`, a bool for `BoolValue`, the default `None` for
`Constant`/`AnyReserved`, and for `Optional` either `None` or an inner-valid
value whose first encoded float is nonzero (0 is the absence sentinel). -/
def Field.validSlot : Field → PyVal → Bool
  | .Value, .num _ => true
  | .Value, _ => false
  | .IntValue, .num q => (pyInt q : ℚ) = q
  | .IntValue, _ => false
  | .BoolValue, .bool _ => true
  | .BoolValue, _ => false
  | .Constant _, v => v = .none
  | .AnyReserved, v => v = .none
  | .Optional f, v =>
      v = .none ||
        (f.validSlot v &&
          match f.encode v with
          | .ok (q :: _) => q != 0
          | _ => false)

/-- Schema-wide slot validity: one valid slot per field, same length. -/
def validSlots : List Field → List PyVal → Bool
  | [], [] => true
  | f :: fs, v :: vs => f.validSlot v && validSlots fs vs
  | _, _ => false

/-! ## melatools/rsd.py : RSD domain records -/

/-- The 34-field schema of `RsdSamplePlot` (rsd.py), in declaration order. -/
def RsdSamplePlot.fields : List Field :=
  [.IntValue, .IntValue, .Value, .Value, .Value, .Value, .Optional .Value,
   .Value, .Value, .IntValue, .IntValue, .IntValue, .IntValue, .IntValue,
   .IntValue, .IntValue, .IntValue, .Constant 0, .IntValue, .IntValue,
   .IntValue, .IntValue, .IntValue, .Optional .Value, .IntValue, .IntValue,
   .IntValue, .IntValue, .IntValue, .IntValue, .IntValue, .IntValue,
   .AnyReserved, .AnyReserved]

/-- The 17-field schema of `RsdTree` (rsd.py), in declaration order. -/
def RsdTree.fields : List Field :=
  [.Value, .IntValue, .Value, .Value, .Value, .Value, .Optional .Value,
   .Optional .Value, .Optional .Value, .Optional .IntValue,
   .Optional .IntValue, .Optional .Value, .Optional .Value, .Optional .Value,
   .Optional .Value, .Optional .IntValue, .AnyReserved]

/-- `Record.decode(stream, fields=fields[:n])` from record.py: decode a prefix
of the schema; the remaining attributes keep their default `None`. -/
def decodeRecordPrefix (allFields : List Field) (n : Nat) (s : List ℚ) :
    Except String (List PyVal × List ℚ) :=
  match decodeFields (allFields.take n) s with
  | .error e => .error e
  | .ok (vs, s') => .ok (vs ++ List.replicate (allFields.length - n) .none, s')

/-- `FpStream.nextint` from record.py: the next float must equal its own
truncation. -/
def nextint : List ℚ → Except String (Int × List ℚ)
  | [] => .error "Buffer overrun"
  | q :: s => if (pyInt q : ℚ) = q then .ok (pyInt q, s) else .error "Non-integer floating point"

/-- `RsdInitialDataRecord` from rsd.py: a sample plot (34 slots in
`RsdSamplePlot.fields` order) and a list of trees (17 slots each in
`RsdTree.fields` order). -/
structure RsdInitialDataRecord where
  plot : List PyVal
  trees : List (List PyVal)
deriving DecidableEq, Repr

/-- `RsdInitialDataRecord.to_floats` from rsd.py:
`[len(plot fields), plot floats, len(trees), len(tree fields), tree floats]`. -/
def RsdInitialDataRecord.to_floats (r : RsdInitialDataRecord) : Except String (List ℚ) :=
  match encodeFields RsdSamplePlot.fields r.plot with
  | .error e => .error e
  | .ok p =>
    match r.trees.mapM (encodeFields RsdTree.fields) with
    | .error e => .error e
    | .ok ts =>
        .ok (((RsdSamplePlot.fields.length : ℚ)) :: p
          ++ [(r.trees.length : ℚ), (RsdTree.fields.length : ℚ)] ++ ts.flatten)

/-- The tree-decoding list comprehension of `RsdInitialDataRecord.from_floats`:
`nt` records, each decoded with the `ntv`-field schema prefix. -/
def decodeTrees (ntv : Nat) : Nat → List ℚ → Except String (List (List PyVal) × List ℚ)
  | 0, s => .ok ([], s)
  | n + 1, s =>
    match decodeRecordPrefix RsdTree.fields ntv s with
    | .error e => .error e
    | .ok (t, s') =>
      match decodeTrees ntv n s' with
      | .error e => .error e
      | .ok (ts, s'') => .ok (t :: ts, s'')

/-- `RsdInitialDataRecord.from_floats` from rsd.py: reads the plot field
count (failing if it exceeds the schema), the plot, the tree count, the tree
field count, and the trees.  `range(nt)` of a negative count is empty, hence
`toNat`; the slice `fields[:nv]` uses Python index normalization. -/
def RsdInitialDataRecord.from_floats (buf : List ℚ) : Except String RsdInitialDataRecord :=
  match nextint buf with
  | .error e => .error e
  | .ok (nv, s) =>
    if (RsdSamplePlot.fields.length : Int) < nv then
      .error "Given more sample plot fields than the schema has"
    else
      match decodeRecordPrefix RsdSamplePlot.fields (pyIdx RsdSamplePlot.fields.length nv) s with
      | .error e => .error e
      | .ok (plot, s1) =>
        match nextint s1 with
        | .error e => .error e
        | .ok (nt, s2) =>
          match nextint s2 with
          | .error e => .error e
          | .ok (ntv, s3) =>
            match decodeTrees (pyIdx RsdTree.fields.length ntv) nt.toNat s3 with
            | .error e => .error e
            | .ok (trees, _) => .ok ⟨plot, trees⟩

/-- Schema validity of a whole initial-data record. -/
def RsdInitialDataRecord.Valid (r : RsdInitialDataRecord) : Bool :=
  validSlots RsdSamplePlot.fields r.plot && r.trees.all (validSlots RsdTree.fields)

/-! ## melatools/msb.py : MSB binary physical-record codec

The byte stream is a list of bytes read through a cursor.  The machine- and
compiler-dependent scalar layouts that the source delegates to `struct.pack` /
`struct.unpack` (chosen by the format characters of `MsbFormat`) are carried
as explicit codec functions in the format descriptor; `struct.calcsize` of a
single format character is always positive, hence the positivity fields.
`math.isfinite` guards cannot fire in the rational embedding (every rational
embeds a finite double), so they impose no condition here. -/

/-- `MsbFormat` from msb.py, with the `struct` codecs made explicit. -/
structure MsbFormat where
  uidSize : Nat
  floatSize : Nat
  intSize : Nat
  uidSize_pos : 0 < uidSize
  floatSize_pos : 0 < floatSize
  intSize_pos : 0 < intSize
  packUid : ℚ → List Nat
  unpackUid : List Nat → ℚ
  packFloat : ℚ → List Nat
  unpackFloat : List Nat → ℚ
  packInt : Nat → List Nat
  unpackInt : List Nat → Nat

/-- The two exception kinds of msb.py: `MsbEof` (short read) and the other
`MsbError`s (format violations and propagated decode errors). -/
inductive MsbErr where
  | eof
  | err (msg : String)
deriving DecidableEq, Repr

/-- `MsbStream._read` from msb.py: read exactly `sz` bytes at the cursor or
raise `MsbEof`. -/
def msbRead (file : List Nat) (pos sz : Nat) : Except MsbErr (List Nat × Nat) :=
  let b := (file.drop pos).take sz
  if b.length < sz then .error .eof else .ok (b, pos + sz)

/-- `MsbStream.read_int` from msb.py. -/
def read_int (fmt : MsbFormat) (file : List Nat) (pos : Nat) : Except MsbErr (Nat × Nat) :=
  match msbRead file pos fmt.intSize with
  | .error e => .error e
  | .ok (b, p) => .ok (fmt.unpackInt b, p)

/-- `MsbStream.read_uid` from msb.py. -/
def read_uid (fmt : MsbFormat) (file : List Nat) (pos : Nat) : Except MsbErr (ℚ × Nat) :=
  match msbRead file pos fmt.uidSize with
  | .error e => .error e
  | .ok (b, p) => .ok (fmt.unpackUid b, p)

/-- `MsbStream.read_float` from msb.py (the non-finiteness check cannot fire
in the rational embedding). -/
def read_float (fmt : MsbFormat) (file : List Nat) (pos : Nat) : Except MsbErr (ℚ × Nat) :=
  match msbRead file pos fmt.floatSize with
  | .error e => .error e
  | .ok (b, p) => .ok (fmt.unpackFloat b, p)

/-- `MsbStream.read_fpint` from msb.py: a float that must equal its own
truncation. -/
def read_fpint (fmt : MsbFormat) (file : List Nat) (pos : Nat) : Except MsbErr (Int × Nat) :=
  match read_float fmt file pos with
  | .error e => .error e
  | .ok (f, p) =>
      if (pyInt f : ℚ) = f then .ok (pyInt f, p)
      else .error (.err "Unexpected non-integer floating point")

/-- `struct.iter_unpack` over a buffer of `n` float-sized chunks. -/
def unpackChunks (fmt : MsbFormat) : Nat → List Nat → List ℚ
  | 0, _ => []
  | k + 1, b => fmt.unpackFloat (b.take fmt.floatSize) :: unpackChunks fmt k (b.drop fmt.floatSize)

/-- `MsbStream.read_fpbuf` from msb.py: read `n` floats in one bulk read.  For
a negative `n`, Python's `fp.read` returns the whole remaining file and
`iter_unpack` then requires its length to be a multiple of the float size. -/
def read_fpbuf (fmt : MsbFormat) (file : List Nat) (pos : Nat) (n : Int) :
    Except MsbErr (List ℚ × Nat) :=
  if n < 0 then
    let rest := file.drop pos
    if rest.length % fmt.floatSize = 0 then
      .ok (unpackChunks fmt (rest.length / fmt.floatSize) rest, file.length)
    else .error (.err "struct.error: iter_unpack size mismatch")
  else
    match msbRead file pos (n.toNat * fmt.floatSize) with
    | .error e => .error e
    | .ok (b, p) => .ok (unpackChunks fmt n.toNat b, p)

/-- `MsbLogicalRecord` payloads: either the recognized record type 1 decoded
through the rsd schema, or (data model of the spec) an unrecognized type tag
with its raw float buffer kept verbatim. -/
inductive LogicalRecord where
  | rsd (r : RsdInitialDataRecord)
  | rawBuf (record_type : Int) (buf : List ℚ)
deriving DecidableEq, Repr

/-- The `record_type` attribute of a logical record (`RsdInitialDataRecord`
fixes it to 1). -/
def LogicalRecord.record_type : LogicalRecord → Int
  | .rsd _ => 1
  | .rawBuf t _ => t

/-- `to_floats` of a logical record: the rsd encoding for type 1, the stored
buffer unchanged otherwise (`MsbLogicalRecord.to_floats` returns `self.buf`). -/
def LogicalRecord.to_floats : LogicalRecord → Except String (List ℚ)
  | .rsd r => r.to_floats
  | .rawBuf _ b => .ok b

/-- `MsbLogicalRecord.from_floats` from msb.py.  For type 1 it delegates to
`RsdInitialDataRecord.from_floats`.  For every other type the source executes
`return MsbLogicalRecord(typ, args)` — but the class `MsbLogicalRecord`
defines no `__init__` (it only has `to_floats`, `to_json`, `from_floats`,
`from_json`), so this two-argument constructor call raises
`TypeError: MsbLogicalRecord() takes no arguments`; no buffer record is ever
constructed. -/
def MsbLogicalRecord.from_floats (typ : Int) (args : List ℚ) : Except String LogicalRecord :=
  if typ = 1 then
    match RsdInitialDataRecord.from_floats args with
    | .error e => .error e
    | .ok r => .ok (.rsd r)
  else .error "TypeError: MsbLogicalRecord() takes no arguments"

/-- `MsbPhysicalRecord` from msb.py. -/
structure MsbPhysicalRecord where
  uid : ℚ
  records : List LogicalRecord
deriving DecidableEq, Repr

/-- The `while nr < nv` loop of `MsbStream.read_physical_record`: reads one
logical record per iteration (type, size, payload), decodes it through
`MsbLogicalRecord.from_floats`, and advances `nr` by `sz + 2`.  The loop body
always consumes at least two float-sized reads (or raises), so it runs at
most `file.length` times; the fuel argument is only a termination bound and
its exhaustion branch is unreachable from `read_physical_record`. -/
def readRecordsLoop (fmt : MsbFormat) (file : List Nat) :
    Nat → Nat → Int → Int → List LogicalRecord → Except MsbErr (List LogicalRecord × Nat)
  | 0, _, _, _, _ => .error (.err "loop bound exhausted")
  | fuel + 1, pos, nr, nv, acc =>
    if nr < nv then
      match read_fpint fmt file pos with
      | .error e => .error e
      | .ok (typ, pos1) =>
        match read_fpint fmt file pos1 with
        | .error e => .error e
        | .ok (sz, pos2) =>
          match read_fpbuf fmt file pos2 sz with
          | .error e => .error e
          | .ok (b, pos3) =>
            match MsbLogicalRecord.from_floats typ b with
            | .error e => .error (.err e)
            | .ok rec => readRecordsLoop fmt file fuel pos3 (nr + sz + 2) nv (acc ++ [rec])
    else .ok (acc, pos)

/-- `MsbStream.read_physical_record` from msb.py: `MsbEof` is caught only
around the leading length field (yielding `none`, "no more records"); any
later exception propagates.  The trailing length field must equal the leading
one. -/
def read_physical_record (fmt : MsbFormat) (file : List Nat) (pos : Nat) :
    Except MsbErr (Option MsbPhysicalRecord × Nat) :=
  match read_int fmt file pos with
  | .error .eof => .ok (Option.none, pos)
  | .error e => .error e
  | .ok (length, pos1) =>
    match read_uid fmt file pos1 with
    | .error e => .error e
    | .ok (uid, pos2) =>
      match read_int fmt file pos2 with
      | .error e => .error e
      | .ok (nv, pos3) =>
        match readRecordsLoop fmt file (file.length + 1) pos3 0 (nv : Int) [] with
        | .error e => .error e
        | .ok (records, pos4) =>
          match read_int fmt file pos4 with
          | .error e => .error e
          | .ok (length2, pos5) =>
            if length2 = length then .ok (some ⟨uid, records⟩, pos5)
            else .error (.err "Length mismatch")

/-- `sum(2 + len(r) for r in records)` from `write_physical_record`: the
total value count written to the header (per logical record, its payload
length plus the two type/size header floats). -/
def totalValueCount (bufs : List (List ℚ)) : Nat := (bufs.map (fun b => 2 + b.length)).sum

/-- The per-record byte block of `write_physical_record`'s emission loop:
for each logical record, `write_float(record_type)`, `write_float(len(buf))`,
`write_fpbuf(buf)`. -/
def recBytes (fmt : MsbFormat) (records : List LogicalRecord) (bufs : List (List ℚ)) :
    List Nat :=
  ((records.zip bufs).map (fun rb =>
    fmt.packFloat ((rb.1.record_type : ℚ)) ++ fmt.packFloat ((rb.2.length : ℚ))
      ++ (rb.2.map fmt.packFloat).flatten)).flatten

/-- `MsbStream.write_physical_record` from msb.py: encodes every logical
record to floats first, computes the length field
`uidsize + len(records)*intsize + sum(2+len(r))*floatsize`, then emits
`length, uid, total value count, (type, size, payload)*, length`. -/
def write_physical_record (fmt : MsbFormat) (rec : MsbPhysicalRecord) :
    Except String (List Nat) :=
  match rec.records.mapM LogicalRecord.to_floats with
  | .error e => .error e
  | .ok bufs =>
    let nv : Nat := totalValueCount bufs
    let length : Nat := fmt.uidSize + rec.records.length * fmt.intSize + nv * fmt.floatSize
    .ok (fmt.packInt length ++ fmt.packUid rec.uid ++ fmt.packInt nv
      ++ recBytes fmt rec.records bufs
      ++ fmt.packInt length)

/-! ## melatools/par.py : ParWriter line wrapping

`ParWriter.emit` accumulates output pieces in `self.buf` (here the returned
list of strings); `line` holds the tokens (and separating one-space strings)
of the statement line being built, `remain` the remaining column budget, and
`first` the pending line marker. -/

/-- The three statement kinds of `ParWriter.emit`. -/
inductive StmtKind where
  | command
  | string
  | comment
deriving DecidableEq, Repr

/-- The continuation-line budget deduction and marker per statement kind
(the `if kind == ...` ladder inside the wrap branch of `ParWriter.emit`). -/
def contReset (lineWrap : Int) : StmtKind → Int × String
  | .command => (lineWrap - 4, "    ")
  | .string => (lineWrap - 4, "#>> ")
  | .comment => (lineWrap - 1, "*")

/-- `if first: buf.append(first)`: a `None` or empty marker appends nothing. -/
def markerText : Option String → List String
  | Option.none => []
  | some s => if s = "" then [] else [s]

/-- The `for p in map(str, params)` loop of `ParWriter.emit`, plus the final
flush of a nonempty `line`.  The wrap test is `remain - 1 - len(p) <= 0`; a
wrap with an empty `line` raises the "too long to be line-wrapped" error,
otherwise the line is flushed with its marker and the token starts a fresh
continuation line (appended without a further fit check). -/
def emitLoop (lineWrap : Int) (kind : StmtKind) :
    List String → List String → Int → Option String → List String → Except String (List String)
  | [], line, _, first, buf =>
      .ok (if line.isEmpty then buf else buf ++ markerText first ++ line ++ ["\n"])
  | p :: ps, line, remain, first, buf =>
    if remain - 1 - (p.length : Int) ≤ 0 then
      if line.isEmpty then .error "Parameter is too long to be line-wrapped"
      else
        emitLoop lineWrap kind ps [p] ((contReset lineWrap kind).1 - (p.length : Int))
          (some (contReset lineWrap kind).2) (buf ++ markerText first ++ line ++ ["\n"])
    else
      if line.isEmpty then
        emitLoop lineWrap kind ps [p] (remain - (p.length : Int)) first buf
      else
        emitLoop lineWrap kind ps (line ++ [" ", p]) (remain - 1 - (p.length : Int)) first buf

/-- `ParWriter.emit` from par.py: statement kinds set the first-line budget
and marker (`command`: full budget, no marker; `string`: `#`; `comment`:
`*`), then the token loop runs.  Returns the emitted buffer pieces. -/
def ParWriter.emit (lineWrap : Int) (kind : StmtKind) (params : List String) :
    Except String (List String) :=
  match kind with
  | .command => emitLoop lineWrap kind params [] lineWrap Option.none []
  | .string => emitLoop lineWrap kind params [] (lineWrap - 1) (some "#") []
  | .comment => emitLoop lineWrap kind params [] (lineWrap - 1) (some "*") []

/-- Column width of a list of emitted pieces. -/
def piecesWidth (l : List String) : Nat := (l.map String.length).sum

/-! ## melatools/par.py : event model and the deferred linking pass -/

/-- `RoutineCall` from par.py. -/
structure RoutineCall where
  routine : ℚ
  args : List ℚ
deriving DecidableEq, Repr

/-- The result of resolving one cross-referenced event id in
`ParEventLinks.link_events`: `par.events[eid]` when the id has a matching
event (represented by its key in the event table), else `EventRef(eid)`, the
unresolved placeholder carrying only the id. -/
inductive LinkTarget where
  | event (id : Int)
  | ref (id : Int)
deriving DecidableEq, Repr

/-- `Event` from par.py: identity plus the `EventMixin` attributes.  The two
relational attributes hold resolved link targets once `link_events` ran. -/
structure EventData where
  id : Int
  name : String
  years : Option (List ℚ)
  probability : Option (List ℚ)
  branching : Option (List ℚ)
  condition : Option DNFCondition
  min_intervals : Option (List ℚ)
  repeat_interval : Option ℚ
  comparable_events : Option (List LinkTarget)
  feasible_precedessors : Option (List LinkTarget)
  calls : List RoutineCall
deriving DecidableEq, Repr

/-- Assignment `ev.comparable_events = ...`. -/
def EventData.setComparable (e : EventData) (v : Option (List LinkTarget)) : EventData :=
  ⟨e.id, e.name, e.years, e.probability, e.branching, e.condition, e.min_intervals,
   e.repeat_interval, v, e.feasible_precedessors, e.calls⟩

/-- Assignment `ev.feasible_precedessors = ...`. -/
def EventData.setPrecedessors (e : EventData) (v : Option (List LinkTarget)) : EventData :=
  ⟨e.id, e.name, e.years, e.probability, e.branching, e.condition, e.min_intervals,
   e.repeat_interval, e.comparable_events, v, e.calls⟩

/-- The event table `par.events` (a dict with unique integer keys, in
insertion order). -/
def EventTable := List (Int × EventData)

/-- Membership test `eid in par.events` / lookup `par.events[eid]`. -/
def lookupEvent (events : EventTable) (eid : Int) : Option EventData :=
  match events with
  | [] => Option.none
  | (k, e) :: rest => if k = eid then some e else lookupEvent rest eid

/-- `par.events[eid] if eid in par.events else EventRef(eid)` from
`ParEventLinks.link_events`. -/
def resolveRef (events : EventTable) (eid : Int) : LinkTarget :=
  if (lookupEvent events eid).isSome then .event eid else .ref eid

/-- In-place update of the event stored under a key (`par.events[id].attr = v`
mutates the dict's value; keys are untouched). -/
def updateEvent (events : EventTable) (id : Int) (upd : EventData → EventData) : EventTable :=
  events.map (fun ke => if ke.1 = id then (ke.1, upd ke.2) else ke)

/-- `ParEventLinks` from par.py: the deferred-linking tables, keyed by the
referencing event's id (defaultdict: each key appears once). -/
structure ParEventLinks where
  comparable : List (Int × List Int)
  precedessors : List (Int × List Int)

/-- One iteration of a `link_events` loop: if the owning id has a matching
event (`if id in par.events`), overwrite that event's relational attribute
with the resolution computed against the current table; otherwise skip. -/
def linkStep (F : EventTable → Int × List Int → EventData → EventData)
    (evs : EventTable) (p : Int × List Int) : EventTable :=
  if (lookupEvent evs p.1).isSome then updateEvent evs p.1 (F evs p) else evs

/-- The assignment of the first `link_events` loop:
`par.events[id].comparable_events = [resolved ids]`. -/
def linkComparable (evs : EventTable) (p : Int × List Int) (e : EventData) : EventData :=
  e.setComparable (some (p.2.map (resolveRef evs)))

/-- The assignment of the second `link_events` loop:
`par.events[id].feasible_precedessors = [resolved ids]`. -/
def linkPrecedessors (evs : EventTable) (p : Int × List Int) (e : EventData) : EventData :=
  e.setPrecedessors (some (p.2.map (resolveRef evs)))

/-- `ParEventLinks.link_events` from par.py: for each deferred entry whose
owner id has a matching event, overwrite that event's relational attribute
with the per-id resolution (`resolveRef`); owners with no matching event are
skipped.  Dangling referenced ids become `LinkTarget.ref`; nothing fails. -/
def ParEventLinks.link_events (links : ParEventLinks) (events : EventTable) : EventTable :=
  links.precedessors.foldl (linkStep linkPrecedessors)
    (links.comparable.foldl (linkStep linkComparable) events)

/-! ## Concrete witness data: a format with exactly inverse scalar codecs and
a schema-valid sample record -/

/-- Sign interleaving: an injective map from integers to naturals. -/
def intToNat (i : Int) : Nat := if 0 ≤ i then 2 * i.toNat else 2 * (-i).toNat - 1

/-- Inverse of `intToNat`. -/
def natToInt (n : Nat) : Int := if n % 2 = 0 then ((n / 2 : Nat) : Int) else -(((n + 1) / 2 : Nat) : Int)

/-- An injective map from rationals to naturals via numerator/denominator
pairing. -/
def ratToNat (q : ℚ) : Nat := Nat.pair (intToNat q.num) q.den

/-- Inverse of `ratToNat`. -/
def natToRat (n : Nat) : ℚ := ((natToInt (Nat.unpair n).1 : Int) : ℚ) / (((Nat.unpair n).2 : Nat) : ℚ)

/-- A concrete one-word-per-scalar `MsbFormat` whose pack/unpack codecs are
exactly inverse, witnessing the codec hypotheses of the round-trip theorem. -/
def natFmt : MsbFormat where
  uidSize := 1
  floatSize := 1
  intSize := 1
  uidSize_pos := Nat.one_pos
  floatSize_pos := Nat.one_pos
  intSize_pos := Nat.one_pos
  packUid q := [ratToNat q]
  unpackUid b := natToRat (b.headD 0)
  packFloat q := [ratToNat q]
  unpackFloat b := natToRat (b.headD 0)
  packInt n := [n]
  unpackInt b := b.headD 0

/-- A schema-valid sample plot: integral values on the `IntValue`/`Value`
slots, absent optionals, defaults on `Constant`/`AnyReserved` slots. -/
def plotWitness : List PyVal :=
  [.num 1, .num 2, .num 3, .num 4, .num 5, .num 6, PyVal.none, .num 8, .num 9,
   .num 10, .num 11, .num 12, .num 13, .num 14, .num 15, .num 16, .num 17,
   PyVal.none, .num 19, .num 20, .num 21, .num 22, .num 23, PyVal.none,
   .num 25, .num 26, .num 27, .num 28, .num 29, .num 30, .num 31, .num 32,
   PyVal.none, PyVal.none]

/-- A schema-valid tree: values on the six leading slots, absent optionals. -/
def treeWitness : List PyVal :=
  [.num 1, .num 2, .num 3, .num 4, .num 5, .num 6, PyVal.none, PyVal.none,
   PyVal.none, PyVal.none, PyVal.none, PyVal.none, PyVal.none, PyVal.none,
   PyVal.none, PyVal.none, PyVal.none]

/-- A schema-valid initial-data record with one tree. -/
def rWitness : RsdInitialDataRecord := ⟨plotWitness, [treeWitness]⟩

/-- A format with the default `struct` widths of msb.py (`uid "d"` = 8,
`float "f"` = 4, `int "I"` = 4 bytes); the scalar codec contents are
irrelevant to the end-of-stream behavior under test. -/
def fmt4 : MsbFormat where
  uidSize := 8
  floatSize := 4
  intSize := 4
  uidSize_pos := by omega
  floatSize_pos := by omega
  intSize_pos := by omega
  packUid q := [ratToNat q, 0, 0, 0, 0, 0, 0, 0]
  unpackUid b := natToRat (b.headD 0)
  packFloat q := [ratToNat q, 0, 0, 0]
  unpackFloat b := natToRat (b.headD 0)
  packInt n := [n, 0, 0, 0]
  unpackInt b := b.headD 0

/-- A minimal event used to witness the linking-pass theorem. -/
def evWitness : EventData :=
  ⟨1, "a", Option.none, Option.none, Option.none, Option.none, Option.none,
   Option.none, Option.none, Option.none, []⟩

/-! ## Lemmas: Python primitives -/

theorem pyInt_intCast (i : Int) : pyInt (i : ℚ) = i := by
  unfold pyInt
  split
  · exact Int.ceil_intCast i
  · exact Int.floor_intCast i

theorem pyInt_natCast (n : Nat) : pyInt (n : ℚ) = n := by
  have h := pyInt_intCast (n : Int)
  rw [show (((n : Int) : ℚ)) = (n : ℚ) by push_cast; rfl] at h
  exact h

theorem pyIdx_natCast (len n : Nat) : pyIdx len ((n : Int)) = n := by
  unfold pyIdx
  rw [if_pos (Int.ofNat_nonneg n)]
  exact Int.toNat_natCast n

/-! ## Lemmas: DNF condition codec round trip -/

theorem termFloats_ne_nil (v : CValue) : termFloats v ≠ [] := by
  cases v <;> simp [termFloats]

theorem flatten_termFloats_eq_nil {vs : List CValue}
    (h : (vs.map termFloats).flatten = []) : vs = [] := by
  cases vs with
  | nil => rfl
  | cons v rest =>
    rw [List.map_cons, List.flatten_cons, List.append_eq_nil] at h
    exact absurd h.1 (termFloats_ne_nil v)

theorem flatten_termFloats_head {vs : List CValue} (hc : vs.all CValue.canonical = true)
    {y : ℚ} {ys : List ℚ} (h : (vs.map termFloats).flatten = y :: ys) : 0 ≤ y := by
  cases vs with
  | nil => simp at h
  | cons v rest =>
    rw [List.all_cons, Bool.and_eq_true] at hc
    cases v with
    | lit x =>
      simp only [List.map_cons, termFloats, List.flatten_cons, List.cons_append,
        List.nil_append, List.cons.injEq] at h
      rw [← h.1]
      simpa [CValue.canonical] using hc.1
    | range lo hi =>
      simp only [List.map_cons, termFloats, List.flatten_cons, List.cons_append,
        List.cons.injEq] at h
      rw [← h.1]
      have hcv := hc.1
      simp only [CValue.canonical, Bool.and_eq_true, decide_eq_true_eq] at hcv
      exact hcv.1

theorem parseTerms_flatten {vs : List CValue} (hc : vs.all CValue.canonical = true) :
    parseTerms (vs.map termFloats).flatten = vs := by
  induction vs with
  | nil => simp [parseTerms]
  | cons v rest ih =>
    rw [List.all_cons, Bool.and_eq_true] at hc
    cases v with
    | lit x =>
      simp only [List.map_cons, termFloats, List.flatten_cons, List.cons_append, List.nil_append]
      cases hrec : (rest.map termFloats).flatten with
      | nil =>
        have hre : rest = [] := flatten_termFloats_eq_nil hrec
        subst hre
        simp [parseTerms]
      | cons y ys =>
        have hy : 0 ≤ y := flatten_termFloats_head hc.2 hrec
        rw [parseTerms, if_neg (not_lt.mpr hy), ← hrec, ih hc.2]
    | range lo hi =>
      have hhi : 0 < hi := by
        have hcv := hc.1
        simp only [CValue.canonical, Bool.and_eq_true, decide_eq_true_eq] at hcv
        exact hcv.2
      simp only [List.map_cons, termFloats, List.flatten_cons, List.cons_append,
        List.nil_append]
      rw [parseTerms, if_pos (by simpa using hhi), neg_neg, ih hc.2]

theorem constraint_to_floats_eq (c : Constraint) :
    Constraint.to_floats c
      = ((((c.values.map termFloats).flatten.length + 1 : Nat) : ℚ))
        :: (c.var.id : ℚ) :: (c.values.map termFloats).flatten := by
  simp [Constraint.to_floats, Nat.add_comm]

theorem groupLoop_step {c : Constraint} (hc : c.canonical = true)
    (fuel : Nat) (rest : List ℚ) (acc : List Constraint) :
    groupLoop (fuel + 1) (Constraint.to_floats c ++ rest) acc
      = groupLoop fuel rest (acc ++ [c]) := by
  have hcan := hc
  rw [Constraint.canonical, Bool.and_eq_true, decide_eq_true_eq] at hcan
  obtain ⟨hvar, hvals⟩ := hcan
  set T := (c.values.map termFloats).flatten with hT
  have hlen : ((c.var.id : ℚ) :: T).length = T.length + 1 := by simp
  have hne : ¬ (((T.length + 1 : Nat) : Int) = 0) := by omega
  rw [constraint_to_floats_eq, ← hT, List.cons_append, List.cons_append, groupLoop,
    pyInt_natCast, if_neg hne]
  simp only [List.head?_cons]
  rw [pyIdx_natCast]
  rw [show ((c.var.id : ℚ)) :: (T ++ rest) = (((c.var.id : ℚ)) :: T) ++ rest from
    (List.cons_append _ _ _).symm]
  rw [List.take_left' hlen, List.drop_left' hlen]
  rw [List.drop_one, List.tail_cons, pyInt_intCast, ← hvar, hT, parseTerms_flatten hvals]

theorem groupLoop_sep (fuel : Nat) (rest : List ℚ) (acc : List Constraint) :
    groupLoop (fuel + 1) ((0 : ℚ) :: rest) acc = .ok (acc, rest) := by
  rw [groupLoop]
  rw [if_pos (by rw [show ((0 : ℚ)) = ((0 : Nat) : ℚ) by norm_num, pyInt_natCast]; rfl)]

theorem groupLoop_encGroup {g : List Constraint} (hg : g.all Constraint.canonical = true) :
    ∀ (fuel : Nat) (acc : List Constraint), g.length < fuel →
    groupLoop fuel ((g.map Constraint.to_floats).flatten) acc = .ok (acc ++ g, []) := by
  induction g with
  | nil =>
    intro fuel acc hfuel
    match fuel, hfuel with
    | f + 1, _ => rw [List.map_nil, List.flatten_nil, groupLoop, List.append_nil]
  | cons c g' ih =>
    intro fuel acc hfuel
    rw [List.all_cons, Bool.and_eq_true] at hg
    match fuel, hfuel with
    | f + 1, hfuel =>
      rw [List.map_cons, List.flatten_cons, groupLoop_step hg.1 f, ih hg.2 f _ (by
        simp only [List.length_cons] at hfuel; omega)]
      simp

theorem groupLoop_encGroup_sep {g : List Constraint} (hg : g.all Constraint.canonical = true) :
    ∀ (fuel : Nat) (acc : List Constraint) (rest : List ℚ), g.length < fuel →
    groupLoop fuel ((g.map Constraint.to_floats).flatten ++ ((0 : ℚ) :: rest)) acc
      = .ok (acc ++ g, rest) := by
  induction g with
  | nil =>
    intro fuel acc rest hfuel
    match fuel, hfuel with
    | f + 1, _ =>
      rw [List.map_nil, List.flatten_nil, List.nil_append, groupLoop_sep, List.append_nil]
  | cons c g' ih =>
    intro fuel acc rest hfuel
    rw [List.all_cons, Bool.and_eq_true] at hg
    match fuel, hfuel with
    | f + 1, hfuel =>
      rw [List.map_cons, List.flatten_cons, List.append_assoc, groupLoop_step hg.1 f,
        ih hg.2 f _ _ (by simp only [List.length_cons] at hfuel; omega)]
      simp

theorem constraint_to_floats_ne_nil (c : Constraint) : Constraint.to_floats c ≠ [] := by
  rw [constraint_to_floats_eq]
  simp

theorem encGroup_ne_nil {g : List Constraint} (h : g ≠ []) :
    (g.map Constraint.to_floats).flatten ≠ [] := by
  cases g with
  | nil => exact absurd rfl h
  | cons c g' =>
    rw [List.map_cons, List.flatten_cons]
    intro hx
    rw [List.append_eq_nil] at hx
    exact constraint_to_floats_ne_nil c hx.1

theorem encGroup_length_ge (g : List Constraint) :
    g.length ≤ ((g.map Constraint.to_floats).flatten).length := by
  induction g with
  | nil => simp
  | cons c g' ih =>
    rw [List.map_cons, List.flatten_cons, List.length_append, List.length_cons]
    have h2 : 1 ≤ (Constraint.to_floats c).length := by
      rw [constraint_to_floats_eq]; simp
    omega

theorem length_le_length_flatten {α : Type} (L : List (List α)) (h : ∀ l ∈ L, l ≠ []) :
    L.length ≤ L.flatten.length := by
  induction L with
  | nil => simp
  | cons l L' ih =>
    rw [List.flatten_cons, List.length_append, List.length_cons]
    have h1 : 1 ≤ l.length := by
      have := h l (by simp)
      cases l
      · exact absurd rfl this
      · simp
    have h2 := ih (fun x hx => h x (by simp [hx]))
    omega

theorem dnf_to_floats_cons_cons (g g2 : List Constraint) (gs : List (List Constraint)) :
    DNFCondition.to_floats ⟨g :: g2 :: gs⟩
      = (g.map Constraint.to_floats).flatten
          ++ (0 : ℚ) :: DNFCondition.to_floats ⟨g2 :: gs⟩ := by
  simp [DNFCondition.to_floats]

theorem dnf_canonical_cons {g : List Constraint} {gs : List (List Constraint)}
    (h : DNFCondition.canonical ⟨g :: gs⟩ = true) :
    g ≠ [] ∧ g.all Constraint.canonical = true ∧ DNFCondition.canonical ⟨gs⟩ = true := by
  rw [DNFCondition.canonical] at h ⊢
  simp only [List.all_cons, Bool.and_eq_true, Bool.not_eq_true'] at h
  refine ⟨?_, h.1.2, h.2⟩
  intro hg
  subst hg
  simp at h

theorem dnf_to_floats_length {gs : List (List Constraint)}
    (h : DNFCondition.canonical ⟨gs⟩ = true) :
    gs.length + 1 ≤ (DNFCondition.to_floats ⟨gs⟩).length := by
  cases gs with
  | nil => simp [DNFCondition.to_floats]
  | cons g gs' =>
    obtain ⟨hg, _, hgs'⟩ := dnf_canonical_cons h
    rw [DNFCondition.to_floats]
    rw [List.length_append, List.length_flatten]
    have h1 : 2 ≤ ((g.map Constraint.to_floats).map List.length).sum := by
      cases g with
      | nil => exact absurd rfl hg
      | cons c g'' =>
        rw [List.map_cons, List.map_cons, List.sum_cons]
        have : (Constraint.to_floats c).length = (c.values.map termFloats).flatten.length + 2 := by
          rw [constraint_to_floats_eq]; simp
        omega
    have h2 : gs'.length ≤ ((gs'.map
        (fun g2 => (0 : ℚ) :: (g2.map Constraint.to_floats).flatten)).flatten).length := by
      have := length_le_length_flatten
        (gs'.map (fun g2 => (0 : ℚ) :: (g2.map Constraint.to_floats).flatten))
        (by intro l hl; rw [List.mem_map] at hl; obtain ⟨x, _, hx⟩ := hl; rw [← hx]; simp)
      simpa using this
    simp only [List.length_cons]
    omega

theorem dnfLoop_cons_ok (fuel : Nat) (q : ℚ) (args : List ℚ) (group : List Constraint)
    (rest : List ℚ) (h : groupLoop ((q :: args).length + 1) (q :: args) [] = .ok (group, rest))
    (gs : List (List Constraint)) (h2 : dnfLoop fuel rest = .ok gs) :
    dnfLoop (fuel + 1) (q :: args) = .ok (if group.isEmpty then gs else group :: gs) := by
  show (match groupLoop ((q :: args).length + 1) (q :: args) [] with
    | .error e => (Except.error e : Except String (List (List Constraint)))
    | .ok (group, rest) =>
      match dnfLoop fuel rest with
      | .error e => .error e
      | .ok gs => .ok (if group.isEmpty then gs else group :: gs)) = _
  rw [h]
  show (match dnfLoop fuel rest with
    | .error e => (Except.error e : Except String (List (List Constraint)))
    | .ok gs => .ok (if group.isEmpty then gs else group :: gs)) = _
  rw [h2]

theorem isEmpty_false_of_ne_nil {g : List Constraint} (hg : g ≠ []) : g.isEmpty = false := by
  cases g
  · exact absurd rfl hg
  · rfl

theorem dnfLoop_enc : ∀ (gs : List (List Constraint)),
    DNFCondition.canonical ⟨gs⟩ = true →
    ∀ (fuel : Nat), gs.length + 2 ≤ fuel →
    dnfLoop fuel (DNFCondition.to_floats ⟨gs⟩) = .ok gs := by
  intro gs
  induction gs with
  | nil =>
    intro _ fuel hfuel
    match fuel, hfuel with
    | f + 2, _ =>
      have h1 : groupLoop (([(0 : ℚ)]).length + 1) [(0 : ℚ)] [] = .ok ([], []) :=
        groupLoop_sep 1 [] []
      have h2 : dnfLoop (f + 1) [] = .ok [] := rfl
      have h3 := dnfLoop_cons_ok (f + 1) 0 [] [] [] h1 [] h2
      simpa [DNFCondition.to_floats] using h3
  | cons g gs' ih =>
    intro hcan fuel hfuel
    obtain ⟨hg, hgall, hgs'⟩ := dnf_canonical_cons hcan
    match fuel, hfuel with
    | f + 1, hfuel =>
      have hf : gs'.length + 2 ≤ f := by
        simp only [List.length_cons] at hfuel; omega
      obtain ⟨x, xs, hx⟩ := List.exists_cons_of_ne_nil (encGroup_ne_nil hg)
      have hxlen : (g.map Constraint.to_floats).flatten.length = xs.length + 1 := by
        rw [hx]; rfl
      cases gs' with
      | nil =>
        have hEg : DNFCondition.to_floats ⟨[g]⟩ = (g.map Constraint.to_floats).flatten := by
          simp [DNFCondition.to_floats]
        have h1 : groupLoop ((x :: xs).length + 1) (x :: xs) [] = .ok (g, []) := by
          rw [← hx]
          exact groupLoop_encGroup hgall _ [] (by
            have := encGroup_length_ge g
            simp only [List.length_cons] at this ⊢
            omega)
        have h2 : dnfLoop f [] = .ok [] := by
          match f, hf with
          | f' + 1, _ => rfl
        have h3 := dnfLoop_cons_ok f x xs g [] h1 [] h2
        rw [hEg, hx, h3, isEmpty_false_of_ne_nil hg]
        rfl
      | cons g2 gs'' =>
        have hsplit := dnf_to_floats_cons_cons g g2 gs''
        set X := DNFCondition.to_floats ⟨g2 :: gs''⟩ with hX
        have hshape : DNFCondition.to_floats ⟨g :: g2 :: gs''⟩ = x :: (xs ++ (0 : ℚ) :: X) := by
          rw [hsplit, hx, List.cons_append]
        have h1 : groupLoop ((x :: (xs ++ (0 : ℚ) :: X)).length + 1)
            (x :: (xs ++ (0 : ℚ) :: X)) [] = .ok (g, X) := by
          rw [← List.cons_append, ← hx]
          exact groupLoop_encGroup_sep hgall _ [] X (by
            have := encGroup_length_ge g
            rw [List.length_append, hxlen]
            simp only [List.length_cons]
            omega)
        have h2 : dnfLoop f X = .ok (g2 :: gs'') := ih hgs' f hf
        have h3 := dnfLoop_cons_ok f x (xs ++ (0 : ℚ) :: X) g X h1 _ h2
        rw [hshape, h3, isEmpty_false_of_ne_nil hg]
        rfl

/-! ## Claims C2, C4, C5 -/

/-- C2 counterexample: the round trip `decode(encode(C)) = C` fails on the
code as universally stated.  The constraint on variable 1 with literal value
list `[3, -5]` encodes to `[3, 1, 3, -5]`, and the sign-based decoder reads
the pair `3, -5` back as the single range `(3, 5)`, not two literals. -/
theorem dnf_negative_literal_breaks_roundtrip :
    DNFCondition.from_floats
        (DNFCondition.to_floats ⟨[[⟨get_var 1, [.lit 3, .lit (-5)]⟩]]⟩)
      = .ok ⟨[[⟨get_var 1, [.range 3 5]⟩]]⟩
    ∧ (DNFCondition.mk [[⟨get_var 1, [.range 3 5]⟩]])
        ≠ ⟨[[⟨get_var 1, [.lit 3, .lit (-5)]⟩]]⟩ := by
  decide

/-- C2 (amended): for every canonical condition — no empty groups, each
constraint's variable the canonical resolution of its id, literals and range
lows nonnegative, range highs positive, so that the sign-based range marking
is unambiguous — decoding the encoding reproduces the condition exactly; the
empty condition encodes to exactly `[0]` and `[0]` decodes to the empty group
list. -/
theorem dnf_roundtrip_canonical (d : DNFCondition) (h : d.canonical = true) :
    DNFCondition.from_floats (DNFCondition.to_floats d) = .ok d
    ∧ DNFCondition.to_floats ⟨[]⟩ = [0]
    ∧ DNFCondition.from_floats [0] = .ok ⟨[]⟩ := by
  refine ⟨?_, by decide, by decide⟩
  unfold DNFCondition.from_floats
  have hlen : d.groups.length + 1 ≤ (DNFCondition.to_floats d).length :=
    @dnf_to_floats_length d.groups h
  rw [dnfLoop_enc d.groups h _ (by omega)]
  rfl

/-- C2 witness: the amended round trip at a concrete canonical condition. -/
theorem dnf_roundtrip_canonical_witness :
    (DNFCondition.canonical ⟨[[⟨get_var 7, [.lit 2, .range 1 4]⟩],
        [⟨get_var 8, [.lit 6]⟩]]⟩) = true
    ∧ (DNFCondition.from_floats (DNFCondition.to_floats
          ⟨[[⟨get_var 7, [.lit 2, .range 1 4]⟩], [⟨get_var 8, [.lit 6]⟩]]⟩)
        = .ok ⟨[[⟨get_var 7, [.lit 2, .range 1 4]⟩], [⟨get_var 8, [.lit 6]⟩]]⟩
      ∧ DNFCondition.to_floats ⟨[]⟩ = [0]
      ∧ DNFCondition.from_floats [0] = .ok ⟨[]⟩) :=
  ⟨by decide, dnf_roundtrip_canonical _ (by decide)⟩

/-- C4 counterexample: for the constraint binding variable 9 to the single
literal 1, the encoding is `[2, 9, 1]`: the leading count is 2, but the total
number of floats used by the constraint is 3, so the count does not include
the count float itself as the claim states. -/
theorem constraint_count_not_total_cex :
    Constraint.to_floats ⟨get_var 9, [.lit 1]⟩ = [2, 9, 1]
    ∧ (Constraint.to_floats ⟨get_var 9, [.lit 1]⟩).length = 3
    ∧ ¬ ((Constraint.to_floats ⟨get_var 9, [.lit 1]⟩).headI
          = ((Constraint.to_floats ⟨get_var 9, [.lit 1]⟩).length : ℚ)) := by
  decide

/-- C4 (amended): every constraint encodes as `[n, varId, terms...]` where the
leading count `n = 1 + number of term floats` counts the var id and the term
floats but not the count float itself; the whole block is `n + 1` floats, and
on a canonical constraint the decoding loop consumes exactly that block (one
fuel step) before continuing with the rest. -/
theorem constraint_count_shape (c : Constraint) (hc : c.canonical = true) :
    Constraint.to_floats c
      = ((((c.values.map termFloats).flatten.length + 1 : Nat) : ℚ))
          :: (c.var.id : ℚ) :: (c.values.map termFloats).flatten
    ∧ (Constraint.to_floats c).length = ((c.values.map termFloats).flatten.length + 1) + 1
    ∧ ∀ (fuel : Nat) (rest : List ℚ) (acc : List Constraint),
        groupLoop (fuel + 1) (Constraint.to_floats c ++ rest) acc
          = groupLoop fuel rest (acc ++ [c]) :=
  ⟨constraint_to_floats_eq c,
   by rw [constraint_to_floats_eq]; simp,
   fun fuel rest acc => groupLoop_step hc fuel rest acc⟩

/-- C4 witness: the amended shape and consumption facts at a concrete
constraint. -/
theorem constraint_count_shape_witness :
    (Constraint.canonical ⟨get_var 3, [.lit 2]⟩) = true
    ∧ (Constraint.to_floats ⟨get_var 3, [.lit 2]⟩
        = ((((Constraint.values ⟨get_var 3, [.lit 2]⟩).map termFloats).flatten.length + 1 : Nat) : ℚ)
            :: ((Constraint.var ⟨get_var 3, [.lit 2]⟩).id : ℚ)
            :: ((Constraint.values ⟨get_var 3, [.lit 2]⟩).map termFloats).flatten
      ∧ (Constraint.to_floats ⟨get_var 3, [.lit 2]⟩).length
          = (((Constraint.values ⟨get_var 3, [.lit 2]⟩).map termFloats).flatten.length + 1) + 1
      ∧ ∀ (fuel : Nat) (rest : List ℚ) (acc : List Constraint),
          groupLoop (fuel + 1) (Constraint.to_floats ⟨get_var 3, [.lit 2]⟩ ++ rest) acc
            = groupLoop fuel rest (acc ++ [⟨get_var 3, [.lit 2]⟩])) :=
  ⟨by decide, constraint_count_shape _ (by decide)⟩

/-- C5: encoding the constraint binding variable 42 to the value set
with literal 3 and range (5, 10) produces exactly `[4, 42, 3, 5, -10]`, and
decoding that float sequence reproduces the constraint on variable 42 with
values `[3, (5, 10)]`. -/
theorem constraint_scenario_var42 :
    Constraint.to_floats ⟨get_var 42, [.lit 3, .range 5 10]⟩ = [4, 42, 3, 5, -10]
    ∧ DNFCondition.from_floats [4, 42, 3, 5, -10]
        = .ok ⟨[[⟨get_var 42, [.lit 3, .range 5 10]⟩]]⟩ := by
  decide

/-! ## Claims C7, C8: ParWriter line wrapping -/

/-- C8: with a 10-column budget, emitting the command name "AB" with
parameters "123456" and "7" puts "AB 123456" on the first line and "7" on a
continuation line behind the 4-space command continuation marker. -/
theorem emit_budget10_scenario :
    ParWriter.emit 10 .command ["AB", "123456", "7"]
      = .ok ["AB", " ", "123456", "\n", "    ", "7", "\n"]
    ∧ String.join ["AB", " ", "123456", "\n", "    ", "7", "\n"] = "AB 123456\n    7\n" := by
  decide

/-- C7 counterexample: with budget 10 and command tokens "ABCDEFG" and "HI",
appending "HI" (plus its separating space) would make the line exactly 10
columns — not exceeding the budget — yet the emitter opens a continuation
line, refuting "appended whenever adding it would not make the line exceed
the budget". -/
theorem emit_wraps_at_exact_fit_cex :
    ParWriter.emit 10 .command ["ABCDEFG", "HI"]
      = .ok ["ABCDEFG", "\n", "    ", "HI", "\n"]
    ∧ "ABCDEFG".length + 1 + "HI".length ≤ 10 := by
  decide

/-- C7 (amended): in the emit loop, with `remain` holding the budget minus
the columns already used by the pending marker and line, a token is appended
to a nonempty current line exactly when marker + line + separator + token
stays strictly below the budget; a continuation line with the kind-specific
marker is opened exactly when that sum reaches or exceeds the budget (so a
token that would exactly fill the line is wrapped); and the unrecoverable
formatting error is raised exactly when the wrap test fires on an empty line,
i.e. for a statement's first token with marker + 1 + token reaching the
budget. -/
theorem emit_step_characterization (lineWrap : Int) (kind : StmtKind) (p : String)
    (ps line : List String) (remain : Int) (first : Option String) (buf : List String)
    (hinv : remain
      = lineWrap - (piecesWidth (markerText first) : Int) - (piecesWidth line : Int)) :
    (line ≠ [] →
      (((piecesWidth (markerText first) : Int) + piecesWidth line + 1 + p.length < lineWrap →
        emitLoop lineWrap kind (p :: ps) line remain first buf
          = emitLoop lineWrap kind ps (line ++ [" ", p]) (remain - 1 - p.length) first buf)
      ∧ (lineWrap ≤ (piecesWidth (markerText first) : Int) + piecesWidth line + 1 + p.length →
        emitLoop lineWrap kind (p :: ps) line remain first buf
          = emitLoop lineWrap kind ps [p] ((contReset lineWrap kind).1 - p.length)
              (some (contReset lineWrap kind).2) (buf ++ markerText first ++ line ++ ["\n"]))))
    ∧ (line = [] →
      ((lineWrap ≤ (piecesWidth (markerText first) : Int) + 1 + p.length →
        emitLoop lineWrap kind (p :: ps) line remain first buf
          = .error "Parameter is too long to be line-wrapped")
      ∧ ((piecesWidth (markerText first) : Int) + 1 + p.length < lineWrap →
        emitLoop lineWrap kind (p :: ps) line remain first buf
          = emitLoop lineWrap kind ps [p] (remain - p.length) first buf))) := by
  have h0 : piecesWidth ([] : List String) = 0 := rfl
  refine ⟨fun hline => ⟨fun hfit => ?_, fun hwrap => ?_⟩,
    fun hline => ⟨fun herr => ?_, fun hfit => ?_⟩⟩
  · have hne : ¬ (line.isEmpty = true) := by
      cases line
      · exact absurd rfl hline
      · simp
    have hcond : ¬ (remain - 1 - (p.length : Int) ≤ 0) := by omega
    rw [emitLoop, if_neg hcond, if_neg hne]
  · have hne : ¬ (line.isEmpty = true) := by
      cases line
      · exact absurd rfl hline
      · simp
    have hcond : remain - 1 - (p.length : Int) ≤ 0 := by omega
    rw [emitLoop, if_pos hcond, if_neg hne]
  · subst hline
    rw [h0] at hinv
    have hcond : remain - 1 - (p.length : Int) ≤ 0 := by omega
    rw [emitLoop, if_pos hcond]
    rfl
  · subst hline
    rw [h0] at hinv
    have hcond : ¬ (remain - 1 - (p.length : Int) ≤ 0) := by omega
    rw [emitLoop, if_neg hcond]
    rfl

/-- C7 witness: the amended wrap characterization at the concrete state
reached after "ABCDEFG" under budget 10. -/
theorem emit_step_characterization_witness :
    ((3 : Int) = 10 - (piecesWidth (markerText Option.none) : Int)
        - (piecesWidth ["ABCDEFG"] : Int))
    ∧ ((["ABCDEFG"] : List String) ≠ [] →
      (((piecesWidth (markerText Option.none) : Int) + piecesWidth ["ABCDEFG"] + 1
            + "HI".length < 10 →
        emitLoop 10 .command ["HI"] ["ABCDEFG"] 3 Option.none []
          = emitLoop 10 .command [] (["ABCDEFG"] ++ [" ", "HI"]) (3 - 1 - "HI".length)
              Option.none [])
      ∧ (10 ≤ (piecesWidth (markerText Option.none) : Int) + piecesWidth ["ABCDEFG"] + 1
            + "HI".length →
        emitLoop 10 .command ["HI"] ["ABCDEFG"] 3 Option.none []
          = emitLoop 10 .command [] ["HI"] ((contReset 10 .command).1 - "HI".length)
              (some (contReset 10 .command).2)
              ([] ++ markerText Option.none ++ ["ABCDEFG"] ++ ["\n"]))))
    ∧ ((["ABCDEFG"] : List String) = [] →
      ((10 ≤ (piecesWidth (markerText Option.none) : Int) + 1 + "HI".length →
        emitLoop 10 .command ["HI"] ["ABCDEFG"] 3 Option.none []
          = .error "Parameter is too long to be line-wrapped")
      ∧ ((piecesWidth (markerText Option.none) : Int) + 1 + "HI".length < 10 →
        emitLoop 10 .command ["HI"] ["ABCDEFG"] 3 Option.none []
          = emitLoop 10 .command [] ["HI"] (3 - "HI".length) Option.none []))) :=
  ⟨by decide,
   (emit_step_characterization 10 .command "HI" [] ["ABCDEFG"] 3 Option.none [] (by decide)).1,
   (emit_step_characterization 10 .command "HI" [] ["ABCDEFG"] 3 Option.none [] (by decide)).2⟩

/-! ## Claim C10: Optional field, present 0 vs absent -/

/-- C10: for each field kind the repository wraps in `Optional` (`Value` and
`IntValue`), encoding the present value 0 writes exactly the single float 0 —
the same output as encoding an absent value — and is not rejected; decoding
that float yields absent, so a present 0 and an absent value are
indistinguishable after one encode/decode round trip. -/
theorem optional_zero_indistinguishable (inner : Field)
    (h : inner = Field.Value ∨ inner = Field.IntValue) :
    Field.encode (.Optional inner) (.num 0) = .ok [0]
    ∧ Field.encode (.Optional inner) .none = .ok [0]
    ∧ ∀ (rest : List ℚ), Field.decode (.Optional inner) ((0 : ℚ) :: rest)
        = .ok (.none, rest) := by
  rcases h with h | h <;> subst h <;> exact ⟨rfl, rfl, fun rest => rfl⟩

/-- C10 witness: the indistinguishability facts at `Optional(Value())`, the
wrapping used by the rsd schemas. -/
theorem optional_zero_indistinguishable_witness :
    (Field.Value = Field.Value ∨ Field.Value = Field.IntValue)
    ∧ (Field.encode (.Optional .Value) (.num 0) = .ok [0]
      ∧ Field.encode (.Optional .Value) .none = .ok [0]
      ∧ ∀ (rest : List ℚ), Field.decode (.Optional .Value) ((0 : ℚ) :: rest)
          = .ok (.none, rest)) :=
  ⟨Or.inl rfl, optional_zero_indistinguishable Field.Value (Or.inl rfl)⟩

/-! ## Lemmas: record framework round trip -/

theorem field_encode_decode (f : Field) (v : PyVal) (h : f.validSlot v = true) :
    ∃ out, f.encode v = .ok out
      ∧ ∀ rest, f.decode (out ++ rest) = .ok (v, rest) := by
  induction f generalizing v with
  | Value =>
    match v, h with
    | .num q, _ => exact ⟨[q], rfl, fun rest => rfl⟩
  | IntValue =>
    match v, h with
    | .num q, h =>
      have hq : ((pyInt q : ℚ)) = q := by
        simpa [Field.validSlot] using h
      refine ⟨[q], rfl, fun rest => ?_⟩
      show Field.decode .IntValue (q :: rest) = _
      rw [Field.decode, if_pos hq, hq]
  | BoolValue =>
    match v, h with
    | .bool b, _ =>
      cases b
      · exact ⟨[0], rfl, fun rest => by
          show Field.decode .BoolValue ((0 : ℚ) :: rest) = _
          rw [Field.decode]
          norm_num⟩
      · exact ⟨[1], rfl, fun rest => rfl⟩
  | Constant c =>
    match v, h with
    | .none, _ =>
      refine ⟨[c], ?_, fun rest => ?_⟩
      · rw [Field.encode, if_neg (by simp)]
      · show Field.decode (.Constant c) (c :: rest) = _
        rw [Field.decode, if_pos rfl]
  | AnyReserved =>
    match v, h with
    | .none, _ => exact ⟨[0], rfl, fun rest => rfl⟩
  | Optional f ih =>
    by_cases hv : v = .none
    · subst hv
      refine ⟨[0], rfl, fun rest => ?_⟩
      show Field.decode (.Optional f) ((0 : ℚ) :: rest) = _
      rw [Field.decode, if_pos rfl]
    · have h2 : f.validSlot v = true ∧
          (match f.encode v with
            | .ok (q :: _) => q != 0
            | _ => false) = true := by
        rw [Field.validSlot] at h
        simp only [Bool.or_eq_true, Bool.and_eq_true, decide_eq_true_eq] at h
        rcases h with h | h
        · exact absurd h hv
        · exact h
      obtain ⟨out, hout, hdec⟩ := ih v h2.1
      have hsh : ∃ q out', out = q :: out' ∧ q ≠ 0 := by
        have := h2.2
        rw [hout] at this
        match out, this with
        | q :: out', hq => exact ⟨q, out', rfl, by simpa using hq⟩
      obtain ⟨q, out', hqo, hq0⟩ := hsh
      refine ⟨out, ?_, fun rest => ?_⟩
      · rw [Field.encode, if_neg hv]
        exact hout
      · rw [hqo]
        show Field.decode (.Optional f) (q :: (out' ++ rest)) = _
        rw [Field.decode, if_neg hq0]
        have := hdec rest
        rw [hqo] at this
        exact this

theorem encodeFields_decodeFields (fields : List Field) (vs : List PyVal)
    (h : validSlots fields vs = true) :
    ∃ out, encodeFields fields vs = .ok out
      ∧ ∀ rest, decodeFields fields (out ++ rest) = .ok (vs, rest) := by
  induction fields generalizing vs with
  | nil =>
    match vs, h with
    | [], _ => exact ⟨[], rfl, fun rest => rfl⟩
  | cons f fs ih =>
    match vs, h with
    | v :: vs', h =>
      rw [validSlots, Bool.and_eq_true] at h
      obtain ⟨out1, hout1, hdec1⟩ := field_encode_decode f v h.1
      obtain ⟨out2, hout2, hdec2⟩ := ih vs' h.2
      refine ⟨out1 ++ out2, ?_, fun rest => ?_⟩
      · rw [encodeFields]
        simp only [List.headD_cons, List.tail_cons]
        rw [hout1, hout2]
      · rw [List.append_assoc, decodeFields, hdec1 (out2 ++ rest)]
        show (match decodeFields fs (out2 ++ rest) with
          | .error e => (Except.error e : Except String (List PyVal × List ℚ))
          | .ok (vs2, s'') => .ok (v :: vs2, s'')) = _
        rw [hdec2 rest]

theorem validSlots_length {fields : List Field} {vs : List PyVal}
    (h : validSlots fields vs = true) : vs.length = fields.length := by
  induction fields generalizing vs with
  | nil => match vs, h with
    | [], _ => rfl
  | cons f fs ih =>
    match vs, h with
    | v :: vs', h =>
      rw [validSlots, Bool.and_eq_true] at h
      simp only [List.length_cons, ih h.2]

/-! ## Lemmas: rsd record round trip -/

theorem decodeTrees_enc (trees : List (List PyVal))
    (h : trees.all (validSlots RsdTree.fields) = true)
    (outs : List (List ℚ))
    (houts : trees.mapM (encodeFields RsdTree.fields) = .ok outs) :
    ∀ rest, decodeTrees RsdTree.fields.length trees.length (outs.flatten ++ rest)
      = .ok (trees, rest) := by
  induction trees generalizing outs with
  | nil =>
    cases houts
    intro rest
    rfl
  | cons t ts ih =>
    rw [List.all_cons, Bool.and_eq_true] at h
    obtain ⟨out1, hout1, hdec1⟩ := encodeFields_decodeFields RsdTree.fields t h.1
    rw [List.mapM_cons, hout1] at houts
    simp only [bind, Except.bind] at houts
    cases houts2 : ts.mapM (encodeFields RsdTree.fields) with
    | error e =>
      rw [houts2] at houts
      simp at houts
    | ok outs' =>
      rw [houts2] at houts
      simp only [pure, Except.pure] at houts
      cases houts
      intro rest
      rw [List.flatten_cons, List.append_assoc]
      show decodeTrees RsdTree.fields.length (ts.length + 1) (out1 ++ (outs'.flatten ++ rest))
        = _
      rw [decodeTrees]
      have hlen : t ++ List.replicate (RsdTree.fields.length - RsdTree.fields.length)
          PyVal.none = t := by simp
      have hpre : decodeRecordPrefix RsdTree.fields RsdTree.fields.length
          (out1 ++ (outs'.flatten ++ rest)) = .ok (t, outs'.flatten ++ rest) := by
        rw [decodeRecordPrefix, List.take_length, hdec1 (outs'.flatten ++ rest)]
        show (Except.ok (t ++ List.replicate (RsdTree.fields.length - RsdTree.fields.length)
          PyVal.none, outs'.flatten ++ rest) : Except String (List PyVal × List ℚ)) = _
        rw [hlen]
      rw [hpre]
      show (match decodeTrees RsdTree.fields.length ts.length (outs'.flatten ++ rest) with
        | .error e => (Except.error e : Except String (List (List PyVal) × List ℚ))
        | .ok (ts2, s'') => .ok (t :: ts2, s'')) = _
      rw [ih h.2 outs' houts2 rest]

theorem mapM_encode_trees (trees : List (List PyVal))
    (h : trees.all (validSlots RsdTree.fields) = true) :
    ∃ outs, trees.mapM (encodeFields RsdTree.fields) = .ok outs := by
  induction trees with
  | nil => exact ⟨[], rfl⟩
  | cons t ts ih =>
    rw [List.all_cons, Bool.and_eq_true] at h
    obtain ⟨o, ho, _⟩ := encodeFields_decodeFields _ _ h.1
    obtain ⟨outs, houts⟩ := ih h.2
    refine ⟨o :: outs, ?_⟩
    simp only [List.mapM_cons, ho, houts, bind, Except.bind, pure, Except.pure]

theorem nextint_natCast (n : Nat) (s : List ℚ) :
    nextint (((n : Nat) : ℚ) :: s) = .ok ((n : Int), s) := by
  have hq : ((pyInt ((n : Nat) : ℚ) : Int) : ℚ) = ((n : Nat) : ℚ) := by
    rw [pyInt_natCast]
    push_cast
    rfl
  rw [nextint, if_pos hq, pyInt_natCast]

theorem rsd_roundtrip (r : RsdInitialDataRecord) (h : r.Valid = true) :
    ∃ out, r.to_floats = .ok out ∧ RsdInitialDataRecord.from_floats out = .ok r := by
  rw [RsdInitialDataRecord.Valid, Bool.and_eq_true] at h
  obtain ⟨outP, houtP, hdecP⟩ := encodeFields_decodeFields _ _ h.1
  obtain ⟨outs, houts⟩ := mapM_encode_trees r.trees h.2
  have hdecT := decodeTrees_enc r.trees h.2 outs houts
  refine ⟨((RsdSamplePlot.fields.length : ℚ)) :: outP
    ++ [(r.trees.length : ℚ), (RsdTree.fields.length : ℚ)] ++ outs.flatten, ?_, ?_⟩
  · rw [RsdInitialDataRecord.to_floats, houtP]
    show (match r.trees.mapM (encodeFields RsdTree.fields) with
      | .error e => (Except.error e : Except String (List ℚ))
      | .ok ts => .ok (((RsdSamplePlot.fields.length : ℚ)) :: outP
          ++ [(r.trees.length : ℚ), (RsdTree.fields.length : ℚ)] ++ ts.flatten)) = _
    rw [houts]
  · have hassoc : ((RsdSamplePlot.fields.length : ℚ)) :: outP
        ++ [(r.trees.length : ℚ), (RsdTree.fields.length : ℚ)] ++ outs.flatten
      = ((RsdSamplePlot.fields.length : ℚ))
          :: (outP ++ ((r.trees.length : ℚ)
              :: (RsdTree.fields.length : ℚ) :: outs.flatten)) := by
      simp [List.append_assoc]
    have hlt : ¬ ((RsdSamplePlot.fields.length : Int)
        < ((RsdSamplePlot.fields.length : Nat) : Int)) := lt_irrefl _
    have hdecT2 : decodeTrees RsdTree.fields.length r.trees.length outs.flatten
        = .ok (r.trees, []) := by
      have h2 := hdecT []
      rwa [List.append_nil] at h2
    have hrepl : List.replicate (RsdSamplePlot.fields.length - RsdSamplePlot.fields.length)
        PyVal.none = [] := by
      rw [Nat.sub_self]
      rfl
    rw [hassoc]
    simp only [RsdInitialDataRecord.from_floats, nextint_natCast, if_neg hlt, pyIdx_natCast,
      decodeRecordPrefix, List.take_length, hdecP, hrepl, List.append_nil, Int.toNat_natCast,
      hdecT2]


/-! ## Lemmas: MSB byte-level reader on encoded input -/

theorem msbRead_exact {file : List Nat} {pos : Nat} {b rest : List Nat}
    (h : file.drop pos = b ++ rest) {sz : Nat} (hsz : b.length = sz) :
    msbRead file pos sz = .ok (b, pos + sz) := by
  subst hsz
  rw [msbRead, h, List.take_left]
  rw [if_neg (lt_irrefl _)]

theorem drop_advance {file : List Nat} {pos : Nat} {b rest : List Nat}
    (h : file.drop pos = b ++ rest) : file.drop (pos + b.length) = rest := by
  rw [← List.drop_drop, h, List.drop_left]

theorem read_int_enc (fmt : MsbFormat) {file : List Nat} {pos : Nat} {b rest : List Nat}
    (h : file.drop pos = b ++ rest) (hlen : b.length = fmt.intSize) :
    read_int fmt file pos = .ok (fmt.unpackInt b, pos + fmt.intSize) := by
  rw [read_int, msbRead_exact h hlen]

theorem read_uid_enc (fmt : MsbFormat) {file : List Nat} {pos : Nat} {b rest : List Nat}
    (h : file.drop pos = b ++ rest) (hlen : b.length = fmt.uidSize) :
    read_uid fmt file pos = .ok (fmt.unpackUid b, pos + fmt.uidSize) := by
  rw [read_uid, msbRead_exact h hlen]

theorem read_fpint_enc (fmt : MsbFormat) {file : List Nat} {pos : Nat} {b rest : List Nat}
    (h : file.drop pos = b ++ rest) (hlen : b.length = fmt.floatSize)
    (i : Int) (hq : fmt.unpackFloat b = ((i : Int) : ℚ)) :
    read_fpint fmt file pos = .ok (i, pos + fmt.floatSize) := by
  rw [read_fpint, read_float, msbRead_exact h hlen]
  show (if ((pyInt (fmt.unpackFloat b) : Int) : ℚ) = fmt.unpackFloat b then
      Except.ok (pyInt (fmt.unpackFloat b), pos + fmt.floatSize)
    else (Except.error (MsbErr.err "Unexpected non-integer floating point")
      : Except MsbErr (Int × Nat))) = _
  rw [hq, pyInt_intCast]
  rw [if_pos rfl]

theorem packFloat_flatten_length (fmt : MsbFormat)
    (hF1 : ∀ q, (fmt.packFloat q).length = fmt.floatSize) (fs : List ℚ) :
    ((fs.map fmt.packFloat).flatten).length = fs.length * fmt.floatSize := by
  induction fs with
  | nil => simp
  | cons q fs' ih =>
    rw [List.map_cons, List.flatten_cons, List.length_append, ih, hF1, List.length_cons]
    ring

theorem unpackChunks_enc (fmt : MsbFormat)
    (hF1 : ∀ q, (fmt.packFloat q).length = fmt.floatSize)
    (hF2 : ∀ q, fmt.unpackFloat (fmt.packFloat q) = q) :
    ∀ (fs : List ℚ), unpackChunks fmt fs.length ((fs.map fmt.packFloat).flatten) = fs := by
  intro fs
  induction fs with
  | nil => rfl
  | cons q fs' ih =>
    rw [List.map_cons, List.flatten_cons, List.length_cons, unpackChunks,
      List.take_left' (hF1 q), List.drop_left' (hF1 q), hF2, ih]

theorem read_fpbuf_enc (fmt : MsbFormat) {file : List Nat} {pos : Nat} (fs : List ℚ)
    {rest : List Nat} (h : file.drop pos = (fs.map fmt.packFloat).flatten ++ rest)
    (hF1 : ∀ q, (fmt.packFloat q).length = fmt.floatSize)
    (hF2 : ∀ q, fmt.unpackFloat (fmt.packFloat q) = q) :
    read_fpbuf fmt file pos ((fs.length : Int))
      = .ok (fs, pos + fs.length * fmt.floatSize) := by
  have hnn : ¬ (((fs.length : Nat) : Int) < 0) := by omega
  have hlen : ((fs.map fmt.packFloat).flatten).length
      = ((fs.length : Nat) : Int).toNat * fmt.floatSize := by
    rw [packFloat_flatten_length fmt hF1, Int.toNat_natCast]
  rw [read_fpbuf, if_neg hnn, msbRead_exact h hlen]
  show Except.ok (unpackChunks fmt ((fs.length : Nat) : Int).toNat
      ((fs.map fmt.packFloat).flatten), pos + ((fs.length : Nat) : Int).toNat * fmt.floatSize)
    = _
  rw [Int.toNat_natCast, unpackChunks_enc fmt hF1 hF2]

theorem recBytes_cons (fmt : MsbFormat) (x : LogicalRecord) (xs : List LogicalRecord)
    (b : List ℚ) (bs : List (List ℚ)) :
    recBytes fmt (x :: xs) (b :: bs)
      = fmt.packFloat ((x.record_type : ℚ))
          ++ (fmt.packFloat ((b.length : ℚ))
            ++ (((b.map fmt.packFloat).flatten) ++ recBytes fmt xs bs)) := by
  rw [recBytes, List.zip_cons_cons, List.map_cons, List.flatten_cons]
  rw [recBytes]
  simp [List.append_assoc]

theorem recBytes_length (fmt : MsbFormat)
    (hF1 : ∀ q, (fmt.packFloat q).length = fmt.floatSize) :
    ∀ (records : List LogicalRecord) (bufs : List (List ℚ)),
    records.length = bufs.length →
    (recBytes fmt records bufs).length = totalValueCount bufs * fmt.floatSize := by
  intro records
  induction records with
  | nil =>
    intro bufs hlen
    match bufs, hlen with
    | [], _ => simp [recBytes, totalValueCount]
  | cons x xs ih =>
    intro bufs hlen
    match bufs, hlen with
    | b :: bs, hlen =>
      rw [recBytes_cons]
      simp only [List.length_append, List.length_cons] at hlen ⊢
      rw [hF1, hF1, packFloat_flatten_length fmt hF1, ih bs (by omega)]
      simp only [totalValueCount, List.map_cons, List.sum_cons]
      ring


theorem readRecordsLoop_enc (fmt : MsbFormat) (file : List Nat)
    (hF : ∀ q, (fmt.packFloat q).length = fmt.floatSize
      ∧ fmt.unpackFloat (fmt.packFloat q) = q) :
    ∀ (rs : List RsdInitialDataRecord) (outs : List (List ℚ)),
    List.Forall₂ (fun r out => RsdInitialDataRecord.from_floats out = .ok r) rs outs →
    ∀ (fuel : Nat), rs.length < fuel →
    ∀ (pos : Nat) (nr : Int) (acc : List LogicalRecord) (rest : List Nat),
    file.drop pos = recBytes fmt (rs.map .rsd) outs ++ rest →
    readRecordsLoop fmt file fuel pos nr
        (nr + ((totalValueCount outs : Nat) : Int)) acc
      = .ok (acc ++ rs.map .rsd, pos + (recBytes fmt (rs.map .rsd) outs).length) := by
  intro rs
  induction rs with
  | nil =>
    intro outs hrel fuel hfuel pos nr acc rest hdrop
    cases hrel
    match fuel, hfuel with
    | f + 1, _ =>
      rw [readRecordsLoop]
      have hnv : nr + ((totalValueCount [] : Nat) : Int) = nr := by
        simp [totalValueCount]
      rw [hnv, if_neg (lt_irrefl nr)]
      simp [recBytes]
  | cons r rs' ih =>
    intro outs hrel fuel hfuel pos nr acc rest hdrop
    match outs, hrel with
    | out :: outs', List.Forall₂.cons hr hrel' =>
      match fuel, hfuel with
      | f + 1, hfuel =>
        rw [List.map_cons, recBytes_cons] at hdrop
        -- byte-block decomposition
        have hd1 : file.drop pos
            = fmt.packFloat (((LogicalRecord.rsd r).record_type : ℚ))
              ++ (fmt.packFloat ((out.length : ℚ))
                ++ (((out.map fmt.packFloat).flatten)
                  ++ (recBytes fmt (rs'.map .rsd) outs' ++ rest))) := by
          rw [hdrop]
          simp [List.append_assoc]
        have htyp : fmt.unpackFloat (fmt.packFloat (((LogicalRecord.rsd r).record_type : ℚ)))
            = (((1 : Int) : Int) : ℚ) := by
          rw [(hF _).2]
          rfl
        have h1 := read_fpint_enc fmt hd1 ((hF _).1) 1 htyp
        have hd2 : file.drop (pos + fmt.floatSize)
            = fmt.packFloat ((out.length : ℚ))
              ++ (((out.map fmt.packFloat).flatten)
                ++ (recBytes fmt (rs'.map .rsd) outs' ++ rest)) := by
          have := drop_advance hd1
          rwa [(hF _).1] at this
        have hsz : fmt.unpackFloat (fmt.packFloat ((out.length : ℚ)))
            = (((out.length : Int) : Int) : ℚ) := by
          rw [(hF _).2]
          push_cast
          rfl
        have h2 := read_fpint_enc fmt hd2 ((hF _).1) ((out.length : Int)) hsz
        have hd3 : file.drop (pos + fmt.floatSize + fmt.floatSize)
            = ((out.map fmt.packFloat).flatten)
              ++ (recBytes fmt (rs'.map .rsd) outs' ++ rest) := by
          have := drop_advance hd2
          rwa [(hF _).1] at this
        have h3 := read_fpbuf_enc fmt out hd3 (fun q => (hF q).1) (fun q => (hF q).2)
        have hd4 : file.drop (pos + fmt.floatSize + fmt.floatSize
              + out.length * fmt.floatSize)
            = recBytes fmt (rs'.map .rsd) outs' ++ rest := by
          have := drop_advance hd3
          rwa [packFloat_flatten_length fmt (fun q => (hF q).1)] at this
        have h4 : MsbLogicalRecord.from_floats 1 out = .ok (.rsd r) := by
          rw [MsbLogicalRecord.from_floats, if_pos rfl, hr]
        -- one loop iteration
        have hcond : nr < nr + ((totalValueCount (out :: outs') : Nat) : Int) := by
          have h0 : 0 < totalValueCount (out :: outs') := by
            simp [totalValueCount]
          omega
        rw [readRecordsLoop, if_pos hcond, h1]
        show (match read_fpint fmt file (pos + fmt.floatSize) with
          | .error e => (Except.error e : Except MsbErr (List LogicalRecord × Nat))
          | .ok (sz, pos2) =>
            match read_fpbuf fmt file pos2 sz with
            | .error e => .error e
            | .ok (b, pos3) =>
              match MsbLogicalRecord.from_floats 1 b with
              | .error e => .error (.err e)
              | .ok rec => readRecordsLoop fmt file f pos3 (nr + sz + 2)
                  (nr + ((totalValueCount (out :: outs') : Nat) : Int))
                  (acc ++ [rec])) = _
        rw [h2]
        show (match read_fpbuf fmt file (pos + fmt.floatSize + fmt.floatSize)
            ((out.length : Int)) with
          | .error e => (Except.error e : Except MsbErr (List LogicalRecord × Nat))
          | .ok (b, pos3) =>
            match MsbLogicalRecord.from_floats 1 b with
            | .error e => .error (.err e)
            | .ok rec => readRecordsLoop fmt file f pos3 (nr + (out.length : Int) + 2)
                (nr + ((totalValueCount (out :: outs') : Nat) : Int))
                (acc ++ [rec])) = _
        rw [h3]
        show (match MsbLogicalRecord.from_floats 1 out with
          | .error e => (Except.error (MsbErr.err e) : Except MsbErr (List LogicalRecord × Nat))
          | .ok rec => readRecordsLoop fmt file f
              (pos + fmt.floatSize + fmt.floatSize + out.length * fmt.floatSize)
              (nr + (out.length : Int) + 2)
              (nr + ((totalValueCount (out :: outs') : Nat) : Int))
              (acc ++ [rec])) = _
        rw [h4]
        show readRecordsLoop fmt file f
            (pos + fmt.floatSize + fmt.floatSize + out.length * fmt.floatSize)
            (nr + (out.length : Int) + 2)
            (nr + ((totalValueCount (out :: outs') : Nat) : Int))
            (acc ++ [LogicalRecord.rsd r]) = _
        have hnv : nr + ((totalValueCount (out :: outs') : Nat) : Int)
            = (nr + (out.length : Int) + 2) + ((totalValueCount outs' : Nat) : Int) := by
          simp only [totalValueCount, List.map_cons, List.sum_cons]
          push_cast
          ring
        have h5 := ih outs' hrel' f (by
            simp only [List.length_cons] at hfuel
            omega)
          (pos + fmt.floatSize + fmt.floatSize + out.length * fmt.floatSize)
          (nr + (out.length : Int) + 2) (acc ++ [LogicalRecord.rsd r]) rest hd4
        rw [hnv]
        rw [h5]
        rw [List.map_cons, recBytes_cons]
        simp only [List.length_append, (hF _).1, List.singleton_append,
          packFloat_flatten_length fmt (fun q => (hF q).1), Except.ok.injEq, Prod.mk.injEq]
        exact ⟨by simp, by omega⟩


theorem rsd_mapM_to_floats (rs : List RsdInitialDataRecord) (hv : ∀ r ∈ rs, r.Valid = true) :
    ∃ outs, (rs.map LogicalRecord.rsd).mapM LogicalRecord.to_floats = .ok outs
      ∧ List.Forall₂ (fun r out => RsdInitialDataRecord.from_floats out = .ok r) rs outs := by
  induction rs with
  | nil => exact ⟨[], rfl, List.Forall₂.nil⟩
  | cons r rs' ih =>
    obtain ⟨out, hout, hdec⟩ := rsd_roundtrip r (hv r (by simp))
    obtain ⟨outs, houts, hrel⟩ := ih (fun x hx => hv x (by simp [hx]))
    refine ⟨out :: outs, ?_, List.Forall₂.cons hdec hrel⟩
    simp only [List.map_cons, List.mapM_cons,
      show LogicalRecord.to_floats (.rsd r) = .ok out from hout, houts, bind, Except.bind,
      pure, Except.pure]

theorem read_physical_record_ok (fmt : MsbFormat) (file : List Nat) (pos : Nat)
    (L pos1 : Nat) (uid : ℚ) (pos2 NV pos3 : Nat) (records : List LogicalRecord)
    (pos4 L2 pos5 : Nat)
    (h1 : read_int fmt file pos = .ok (L, pos1))
    (h2 : read_uid fmt file pos1 = .ok (uid, pos2))
    (h3 : read_int fmt file pos2 = .ok (NV, pos3))
    (h4 : readRecordsLoop fmt file (file.length + 1) pos3 0 ((NV : Int)) [] = .ok (records, pos4))
    (h5 : read_int fmt file pos4 = .ok (L2, pos5))
    (h6 : L2 = L) :
    read_physical_record fmt file pos = .ok (some ⟨uid, records⟩, pos5) := by
  subst h6
  rw [read_physical_record, h1]
  show (match read_uid fmt file pos1 with
    | .error e => (Except.error e : Except MsbErr (Option MsbPhysicalRecord × Nat))
    | .ok (uid2, pos2) =>
      match read_int fmt file pos2 with
      | .error e => .error e
      | .ok (nv, pos3) =>
        match readRecordsLoop fmt file (file.length + 1) pos3 0 ((nv : Int)) [] with
        | .error e => .error e
        | .ok (records2, pos4) =>
          match read_int fmt file pos4 with
          | .error e => .error e
          | .ok (length2, pos5) =>
            if length2 = L2 then .ok (some ⟨uid2, records2⟩, pos5)
            else .error (.err "Length mismatch")) = _
  rw [h2]
  show (match read_int fmt file pos2 with
    | .error e => (Except.error e : Except MsbErr (Option MsbPhysicalRecord × Nat))
    | .ok (nv, pos3) =>
      match readRecordsLoop fmt file (file.length + 1) pos3 0 ((nv : Int)) [] with
      | .error e => .error e
      | .ok (records2, pos4) =>
        match read_int fmt file pos4 with
        | .error e => .error e
        | .ok (length2, pos5) =>
          if length2 = L2 then .ok (some ⟨uid, records2⟩, pos5)
          else .error (.err "Length mismatch")) = _
  rw [h3]
  show (match readRecordsLoop fmt file (file.length + 1) pos3 0 ((NV : Int)) [] with
    | .error e => (Except.error e : Except MsbErr (Option MsbPhysicalRecord × Nat))
    | .ok (records2, pos4) =>
      match read_int fmt file pos4 with
      | .error e => .error e
      | .ok (length2, pos5) =>
        if length2 = L2 then .ok (some ⟨uid, records2⟩, pos5)
        else .error (.err "Length mismatch")) = _
  rw [h4]
  show (match read_int fmt file pos4 with
    | .error e => (Except.error e : Except MsbErr (Option MsbPhysicalRecord × Nat))
    | .ok (length2, pos5) =>
      if length2 = L2 then .ok (some ⟨uid, records⟩, pos5)
      else .error (.err "Length mismatch")) = _
  rw [h5]
  show (if L2 = L2 then (Except.ok (some ⟨uid, records⟩, pos5)
      : Except MsbErr (Option MsbPhysicalRecord × Nat))
    else .error (.err "Length mismatch")) = _
  rw [if_pos rfl]

theorem totalValueCount_ge (outs : List (List ℚ)) :
    2 * outs.length ≤ totalValueCount outs := by
  induction outs with
  | nil => simp [totalValueCount]
  | cons b bs ih =>
    simp only [totalValueCount, List.map_cons, List.sum_cons, List.length_cons] at ih ⊢
    omega


/-! ## Claim C6: MSB physical-record round trip -/

/-- C6: for every finite list of schema-valid logical records (sample-plot /
tree records whose slots satisfy their field schemas), writing them as a
physical record and decoding the produced byte stream reproduces the original
uid and logical records exactly, and the trailing length field bytes equal
the leading ones.  The `struct` codecs of the machine-dependent format are
carried as hypotheses: packed scalars have the declared widths and unpack
back to the packed value. -/
theorem msb_physical_roundtrip (fmt : MsbFormat) (uid : ℚ) (rs : List RsdInitialDataRecord)
    (hv : ∀ r ∈ rs, r.Valid = true)
    (hI : ∀ n, (fmt.packInt n).length = fmt.intSize ∧ fmt.unpackInt (fmt.packInt n) = n)
    (hU : ∀ q, (fmt.packUid q).length = fmt.uidSize ∧ fmt.unpackUid (fmt.packUid q) = q)
    (hF : ∀ q, (fmt.packFloat q).length = fmt.floatSize
      ∧ fmt.unpackFloat (fmt.packFloat q) = q) :
    ∃ W, write_physical_record fmt ⟨uid, rs.map .rsd⟩ = .ok W
      ∧ read_physical_record fmt W 0 = .ok (some ⟨uid, rs.map .rsd⟩, W.length)
      ∧ W.take fmt.intSize = W.drop (W.length - fmt.intSize) := by
  obtain ⟨outs, houts, hrel⟩ := rsd_mapM_to_floats rs hv
  have houtslen : rs.length = outs.length := hrel.length_eq
  set NV := totalValueCount outs with hNV
  set L := fmt.uidSize + (rs.map LogicalRecord.rsd).length * fmt.intSize + NV * fmt.floatSize
    with hL
  set A := fmt.packInt L with hA
  set B := fmt.packUid uid with hB
  set C := fmt.packInt NV with hC
  set D := recBytes fmt (rs.map LogicalRecord.rsd) outs with hD
  have hAlen : A.length = fmt.intSize := (hI L).1
  have hBlen : B.length = fmt.uidSize := (hU uid).1
  have hClen : C.length = fmt.intSize := (hI NV).1
  have hDlen : D.length = NV * fmt.floatSize := by
    rw [hD, hNV]
    exact recBytes_length fmt (fun q => (hF q).1) _ outs (by simp [houtslen])
  refine ⟨A ++ B ++ C ++ D ++ A, ?_, ?_, ?_⟩
  · simp only [write_physical_record, houts]
  · have hWlen : (A ++ B ++ C ++ D ++ A).length
        = fmt.intSize + fmt.uidSize + fmt.intSize + NV * fmt.floatSize + fmt.intSize := by
      simp only [List.length_append, hAlen, hBlen, hClen, hDlen]
    have hsplit1 : (A ++ B ++ C ++ D ++ A).drop 0 = A ++ (B ++ (C ++ (D ++ A))) := by
      rw [List.drop_zero]
      simp [List.append_assoc]
    have h1 := read_int_enc fmt hsplit1 hAlen
    rw [(hI L).2] at h1
    have hd2 : (A ++ B ++ C ++ D ++ A).drop fmt.intSize = B ++ (C ++ (D ++ A)) := by
      have := drop_advance hsplit1
      rwa [hAlen, Nat.zero_add] at this
    have h2 := read_uid_enc fmt hd2 hBlen
    rw [(hU uid).2] at h2
    have hd3 : (A ++ B ++ C ++ D ++ A).drop (fmt.intSize + fmt.uidSize) = C ++ (D ++ A) := by
      have := drop_advance hd2
      rwa [hBlen] at this
    have h3 := read_int_enc fmt hd3 hClen
    rw [(hI NV).2] at h3
    have hd4 : (A ++ B ++ C ++ D ++ A).drop (fmt.intSize + fmt.uidSize + fmt.intSize)
        = D ++ A := by
      have := drop_advance hd3
      rwa [hClen] at this
    have hfuel : rs.length < (A ++ B ++ C ++ D ++ A).length + 1 := by
      have hge := totalValueCount_ge outs
      have hfs : NV ≤ NV * fmt.floatSize := Nat.le_mul_of_pos_right NV fmt.floatSize_pos
      rw [hWlen]
      rw [hNV] at hfs ⊢
      omega
    have h4 := readRecordsLoop_enc fmt (A ++ B ++ C ++ D ++ A) hF rs outs hrel
      ((A ++ B ++ C ++ D ++ A).length + 1) hfuel
      (fmt.intSize + fmt.uidSize + fmt.intSize) 0 [] A (by rw [hd4, ← hD])
    rw [List.nil_append, ← hD] at h4
    have hzero : (0 : Int) + ((totalValueCount outs : Nat) : Int) = ((NV : Nat) : Int) := by
      rw [hNV]
      omega
    rw [hzero] at h4
    have hd5 : (A ++ B ++ C ++ D ++ A).drop
        (fmt.intSize + fmt.uidSize + fmt.intSize + D.length) = A ++ [] := by
      have := drop_advance (by rw [hd4] : (A ++ B ++ C ++ D ++ A).drop
        (fmt.intSize + fmt.uidSize + fmt.intSize) = D ++ A)
      rw [this, List.append_nil]
    have h5 := read_int_enc fmt hd5 hAlen
    rw [(hI L).2] at h5
    have hfinal := read_physical_record_ok fmt (A ++ B ++ C ++ D ++ A) 0 L fmt.intSize uid
      (fmt.intSize + fmt.uidSize) NV (fmt.intSize + fmt.uidSize + fmt.intSize)
      (rs.map LogicalRecord.rsd)
      (fmt.intSize + fmt.uidSize + fmt.intSize + D.length) L
      (fmt.intSize + fmt.uidSize + fmt.intSize + D.length + fmt.intSize)
      (by rwa [Nat.zero_add] at h1) h2 h3 h4 h5 rfl
    have hpos : fmt.intSize + fmt.uidSize + fmt.intSize + D.length + fmt.intSize
        = (A ++ B ++ C ++ D ++ A).length := by
      rw [hWlen, hDlen]
    rw [hpos] at hfinal
    exact hfinal
  · have hX : (A ++ B ++ C ++ D).length = (A ++ B ++ C ++ D ++ A).length - fmt.intSize := by
      simp only [List.length_append, hAlen, hBlen, hClen]
      omega
    have htake : (A ++ B ++ C ++ D ++ A).take fmt.intSize = A := by
      have hsplit : A ++ B ++ C ++ D ++ A = A ++ (B ++ (C ++ (D ++ A))) := by
        simp [List.append_assoc]
      rw [hsplit, List.take_left' hAlen]
    rw [htake, ← hX, List.drop_left]


theorem natToInt_intToNat (i : Int) : natToInt (intToNat i) = i := by
  unfold intToNat natToInt
  by_cases h : 0 ≤ i
  · rw [if_pos h]
    have h2 : 2 * i.toNat % 2 = 0 := by omega
    rw [if_pos h2]
    omega
  · rw [if_neg h]
    have h2 : ¬ ((2 * (-i).toNat - 1) % 2 = 0) := by omega
    rw [if_neg h2]
    omega

theorem natToRat_ratToNat (q : ℚ) : natToRat (ratToNat q) = q := by
  unfold natToRat ratToNat
  rw [Nat.unpair_pair]
  show ((natToInt (intToNat q.num) : Int) : ℚ) / ((q.den : Nat) : ℚ) = q
  rw [natToInt_intToNat]
  exact Rat.num_div_den q

theorem natFmt_int (n : Nat) :
    (natFmt.packInt n).length = natFmt.intSize ∧ natFmt.unpackInt (natFmt.packInt n) = n :=
  ⟨rfl, rfl⟩

theorem natFmt_uid (q : ℚ) :
    (natFmt.packUid q).length = natFmt.uidSize ∧ natFmt.unpackUid (natFmt.packUid q) = q :=
  ⟨rfl, natToRat_ratToNat q⟩

theorem natFmt_float (q : ℚ) :
    (natFmt.packFloat q).length = natFmt.floatSize
      ∧ natFmt.unpackFloat (natFmt.packFloat q) = q :=
  ⟨rfl, natToRat_ratToNat q⟩

/-- C6 witness: the round trip at the concrete inverse-codec format, uid 7
and one schema-valid record. -/
theorem msb_physical_roundtrip_witness :
    (∀ r ∈ [rWitness], r.Valid = true)
    ∧ (∃ W, write_physical_record natFmt ⟨7, [rWitness].map .rsd⟩ = .ok W
      ∧ read_physical_record natFmt W 0 = .ok (some ⟨7, [rWitness].map .rsd⟩, W.length)
      ∧ W.take natFmt.intSize = W.drop (W.length - natFmt.intSize)) :=
  ⟨by decide,
   msb_physical_roundtrip natFmt 7 [rWitness] (by decide) natFmt_int natFmt_uid natFmt_float⟩


/-! ## Claims C1, C3: MSB logical-record decoding and end-of-stream -/

/-- C1: decoding a logical record with the unrecognized type tag 2 does not
yield an opaque buffer record: the source's `return MsbLogicalRecord(typ, x)`
calls a two-argument constructor on a class with no `__init__`, so it raises
TypeError; no opaque record (and hence no lossless re-encoding) is possible. -/
theorem msb_from_floats_unknown_type_raises :
    MsbLogicalRecord.from_floats 2 [5]
      = .error "TypeError: MsbLogicalRecord() takes no arguments" := by
  decide

/-- C3 counterexample: a 2-byte file is a partial leading length field (one
to three bytes of the 4-byte int present); `read_physical_record` returns the
non-error "no more records" result instead of reporting corruption. -/
theorem truncated_length_field_reads_as_eof_cex :
    read_physical_record fmt4 [0, 0] 0 = .ok (Option.none, 0)
    ∧ 0 < ([0, 0] : List Nat).length
    ∧ ([0, 0] : List Nat).length < fmt4.intSize := by
  decide

/-- C3 (amended): the reader returns the non-error "no more records" result
exactly when the file holds fewer bytes than the leading length field needs;
clean EOF (zero bytes) and a partial leading length field are both treated as
end of stream, and once the length field is fully available the reader never
reports end of stream — any later short read surfaces as an error. -/
theorem read_physical_record_eof_iff (fmt : MsbFormat) (file : List Nat) :
    read_physical_record fmt file 0 = .ok (Option.none, 0) ↔ file.length < fmt.intSize := by
  by_cases h : file.length < fmt.intSize
  · have hread : read_int fmt file 0 = .error .eof := by
      rw [read_int, msbRead]
      rw [if_pos (by simp [List.length_take]; omega)]
    rw [read_physical_record, hread]
    simp [h]
  · have hlen : ¬ (((file.drop 0).take fmt.intSize).length < fmt.intSize) := by
      simp [List.length_take]
      omega
    have hread : read_int fmt file 0
        = .ok (fmt.unpackInt ((file.drop 0).take fmt.intSize), 0 + fmt.intSize) := by
      rw [read_int, msbRead, if_neg hlen]
    rw [read_physical_record]
    simp only [hread]
    cases h2 : read_uid fmt file (0 + fmt.intSize) with
    | error e => simp [h2, h]
    | ok p =>
      obtain ⟨u2, p2⟩ := p
      cases h3 : read_int fmt file p2 with
      | error e => simp [h2, h3, h]
      | ok q =>
        obtain ⟨nv, p3⟩ := q
        cases h4 : readRecordsLoop fmt file (file.length + 1) p3 0 ((nv : Int)) [] with
        | error e => simp [h2, h3, h4, h]
        | ok w =>
          obtain ⟨recs, p4⟩ := w
          cases h5 : read_int fmt file p4 with
          | error e => simp [h2, h3, h4, h5, h]
          | ok z =>
            obtain ⟨len2, p5⟩ := z
            by_cases h6 : len2 = fmt.unpackInt (file.take fmt.intSize)
            · simp [h2, h3, h4, h5, h6, h]
            · simp [h2, h3, h4, h5, h6, h]


/-! ## Lemmas: deferred event linking -/

theorem lookupEvent_cons (a : Int) (b : EventData) (l : EventTable) (i : Int) :
    lookupEvent ((a, b) :: l) i = if a = i then some b else lookupEvent l i := rfl

theorem lookupEvent_updateEvent (events : EventTable) (id t : Int)
    (upd : EventData → EventData) :
    lookupEvent (updateEvent events t upd) id
      = if id = t then (lookupEvent events id).map upd else lookupEvent events id := by
  induction events with
  | nil =>
    show (Option.none : Option EventData)
      = if id = t then Option.map upd Option.none else Option.none
    split <;> rfl
  | cons ke rest ih =>
    obtain ⟨k, e⟩ := ke
    show lookupEvent ((if k = t then (k, upd e) else (k, e)) :: updateEvent rest t upd) id = _
    by_cases hk : k = t
    · subst hk
      by_cases hki : id = k
      · subst hki
        simp [lookupEvent_cons]
      · simp [lookupEvent_cons, hki, Ne.symm hki, ih]
    · by_cases hki : id = k
      · subst hki
        simp [lookupEvent_cons, hk]
      · simp [lookupEvent_cons, hk, hki, Ne.symm hki, ih]

theorem linkStep_isSome (F : EventTable → Int × List Int → EventData → EventData)
    (evs : EventTable) (p : Int × List Int) (k : Int) :
    (lookupEvent (linkStep F evs p) k).isSome = (lookupEvent evs k).isSome := by
  rw [linkStep]
  split
  · rw [lookupEvent_updateEvent]
    split
    · cases lookupEvent evs k <;> rfl
    · rfl
  · rfl

theorem linkFold_isSome (F : EventTable → Int × List Int → EventData → EventData) :
    ∀ (L : List (Int × List Int)) (evs : EventTable) (k : Int),
    (lookupEvent (L.foldl (linkStep F) evs) k).isSome = (lookupEvent evs k).isSome := by
  intro L
  induction L with
  | nil => intro evs k; rfl
  | cons p L' ih =>
    intro evs k
    rw [List.foldl_cons, ih, linkStep_isSome]

theorem resolveRef_congr (evs evs' : EventTable)
    (h : ∀ k, (lookupEvent evs k).isSome = (lookupEvent evs' k).isSome) (eid : Int) :
    resolveRef evs eid = resolveRef evs' eid := by
  rw [resolveRef, resolveRef, h]

theorem linkStep_other (F : EventTable → Int × List Int → EventData → EventData)
    (evs : EventTable) (p : Int × List Int) (k : Int) (h : p.1 ≠ k) :
    lookupEvent (linkStep F evs p) k = lookupEvent evs k := by
  rw [linkStep]
  split
  · rw [lookupEvent_updateEvent, if_neg (fun hc => h hc.symm)]
  · rfl

theorem linkFold_untouched (F : EventTable → Int × List Int → EventData → EventData) :
    ∀ (L : List (Int × List Int)) (evs : EventTable) (k : Int),
    k ∉ L.map Prod.fst →
    lookupEvent (L.foldl (linkStep F) evs) k = lookupEvent evs k := by
  intro L
  induction L with
  | nil => intro evs k _; rfl
  | cons p L' ih =>
    intro evs k hk
    rw [List.map_cons, List.mem_cons] at hk
    push_neg at hk
    rw [List.foldl_cons, ih _ _ hk.2, linkStep_other _ _ _ _ (fun hc => hk.1 hc.symm)]

theorem linkFold_sets (F : EventTable → Int × List Int → EventData → EventData)
    (hF : ∀ evs evs' p e,
      (∀ k, (lookupEvent evs k).isSome = (lookupEvent evs' k).isSome) →
      F evs p e = F evs' p e) :
    ∀ (L : List (Int × List Int)) (evs : EventTable) (id : Int) (ids : List Int)
      (e : EventData),
    (L.map Prod.fst).Nodup → (id, ids) ∈ L → lookupEvent evs id = some e →
    lookupEvent (L.foldl (linkStep F) evs) id = some (F evs (id, ids) e) := by
  intro L
  induction L with
  | nil =>
    intro evs id ids e _ hmem
    cases hmem
  | cons p L' ih =>
    intro evs id ids e hnd hmem he
    rw [List.map_cons, List.nodup_cons] at hnd
    rw [List.foldl_cons]
    rcases List.mem_cons.mp hmem with hhd | htl
    · subst hhd
      have hid : id ∉ L'.map Prod.fst := hnd.1
      rw [linkFold_untouched F L' _ id hid]
      rw [linkStep, if_pos (by rw [he]; rfl), lookupEvent_updateEvent, if_pos rfl, he]
      rfl
    · have hne : p.1 ≠ id := by
        intro hc
        exact hnd.1 (hc ▸ List.mem_map.mpr ⟨(id, ids), htl, rfl⟩)
      have he1 : lookupEvent (linkStep F evs p) id = some e := by
        rw [linkStep_other F evs p id hne, he]
      have := ih (linkStep F evs p) id ids e hnd.2 htl he1
      rw [this, hF (linkStep F evs p) evs (id, ids) e (fun k => linkStep_isSome F evs p k)]

theorem linkComparable_congr : ∀ (evs evs' : EventTable) (p : Int × List Int) (e : EventData),
    (∀ k, (lookupEvent evs k).isSome = (lookupEvent evs' k).isSome) →
    linkComparable evs p e = linkComparable evs' p e := by
  intro evs evs' p e h
  rw [linkComparable, linkComparable]
  rw [List.map_congr_left (fun eid _ => resolveRef_congr evs evs' h eid)]

theorem linkPrecedessors_congr : ∀ (evs evs' : EventTable) (p : Int × List Int) (e : EventData),
    (∀ k, (lookupEvent evs k).isSome = (lookupEvent evs' k).isSome) →
    linkPrecedessors evs p e = linkPrecedessors evs' p e := by
  intro evs evs' p e h
  rw [linkPrecedessors, linkPrecedessors]
  rw [List.map_congr_left (fun eid _ => resolveRef_congr evs evs' h eid)]

theorem linkFold_prec_comparable (L : List (Int × List Int)) :
    ∀ (evs : EventTable) (id : Int),
    (lookupEvent (L.foldl (linkStep linkPrecedessors) evs) id).map EventData.comparable_events
      = (lookupEvent evs id).map EventData.comparable_events := by
  induction L with
  | nil => intro evs id; rfl
  | cons p L' ih =>
    intro evs id
    rw [List.foldl_cons, ih, linkStep]
    split
    · rw [lookupEvent_updateEvent]
      split
      · cases lookupEvent evs id <;> rfl
      · rfl
    · rfl


/-! ## Claim C9: deferred linking of event cross-references -/

/-- C9: the deferred linking pass is total (it never fails, dangling ids
included), and for every deferred comparable/predecessor entry whose owner id
has a matching event, that event's attribute is set to the per-id
resolutions, where an id with a matching event resolves to that event (by
key) and an id with no matching event resolves to the `EventRef` placeholder
carrying only the id. -/
theorem link_events_resolution (links : ParEventLinks) (events : EventTable)
    (hndc : (links.comparable.map Prod.fst).Nodup)
    (hndp : (links.precedessors.map Prod.fst).Nodup) :
    (∀ id ids e, (id, ids) ∈ links.comparable → lookupEvent events id = some e →
      ∃ e', lookupEvent (links.link_events events) id = some e'
        ∧ e'.comparable_events = some (ids.map (resolveRef events)))
    ∧ (∀ id ids e, (id, ids) ∈ links.precedessors → lookupEvent events id = some e →
      ∃ e', lookupEvent (links.link_events events) id = some e'
        ∧ e'.feasible_precedessors = some (ids.map (resolveRef events)))
    ∧ (∀ eid, ((lookupEvent events eid).isSome = true → resolveRef events eid = .event eid)
      ∧ (lookupEvent events eid = Option.none → resolveRef events eid = .ref eid)) := by
  refine ⟨?_, ?_, ?_⟩
  · intro id ids e hmem he
    have h1 := linkFold_sets linkComparable linkComparable_congr links.comparable events
      id ids e hndc hmem he
    rw [ParEventLinks.link_events]
    have h2 := linkFold_prec_comparable links.precedessors
      (links.comparable.foldl (linkStep linkComparable) events) id
    rw [h1] at h2
    cases hfinal : lookupEvent (links.precedessors.foldl (linkStep linkPrecedessors)
        (links.comparable.foldl (linkStep linkComparable) events)) id with
    | none =>
      rw [hfinal] at h2
      simp at h2
    | some e' =>
      rw [hfinal] at h2
      refine ⟨e', rfl, ?_⟩
      have h3 : e'.comparable_events = (linkComparable events (id, ids) e).comparable_events := by
        simpa using h2
      rw [h3]
      rfl
  · intro id ids e hmem he
    rw [ParEventLinks.link_events]
    have hsome : ∀ k, (lookupEvent (links.comparable.foldl (linkStep linkComparable) events)
        k).isSome = (lookupEvent events k).isSome := fun k =>
      linkFold_isSome linkComparable links.comparable events k
    have he1 : ∃ e1, lookupEvent (links.comparable.foldl (linkStep linkComparable) events) id
        = some e1 := by
      have hs := hsome id
      rw [he] at hs
      cases hx : lookupEvent (links.comparable.foldl (linkStep linkComparable) events) id with
      | none => rw [hx] at hs; simp at hs
      | some e1 => exact ⟨e1, rfl⟩
    obtain ⟨e1, he1⟩ := he1
    have h1 := linkFold_sets linkPrecedessors linkPrecedessors_congr links.precedessors
      (links.comparable.foldl (linkStep linkComparable) events) id ids e1 hndp hmem he1
    refine ⟨linkPrecedessors (links.comparable.foldl (linkStep linkComparable) events)
      (id, ids) e1, h1, ?_⟩
    show some (ids.map (resolveRef (links.comparable.foldl (linkStep linkComparable) events)))
      = some (ids.map (resolveRef events))
    rw [List.map_congr_left (fun eid _ =>
      resolveRef_congr (links.comparable.foldl (linkStep linkComparable) events) events
        hsome eid)]
  · intro eid
    constructor
    · intro h
      rw [resolveRef, if_pos h]
    · intro h
      rw [resolveRef, if_neg (by rw [h]; simp)]

/-- C9 witness: linking a table with one event (id 1) and a comparable list
referencing the existing id 1 and the dangling id 99. -/
theorem link_events_resolution_witness :
    (([((1 : Int), [(1 : Int), 99])].map Prod.fst).Nodup)
    ∧ ((([] : List (Int × List Int)).map Prod.fst).Nodup)
    ∧ ((∀ id ids e, (id, ids) ∈ [((1 : Int), [(1 : Int), 99])] →
        lookupEvent [((1 : Int), evWitness)] id = some e →
        ∃ e', lookupEvent (ParEventLinks.link_events ⟨[(1, [1, 99])], []⟩
            [((1 : Int), evWitness)]) id = some e'
          ∧ e'.comparable_events = some (ids.map (resolveRef [((1 : Int), evWitness)])))
      ∧ (∀ id ids e, (id, ids) ∈ ([] : List (Int × List Int)) →
        lookupEvent [((1 : Int), evWitness)] id = some e →
        ∃ e', lookupEvent (ParEventLinks.link_events ⟨[(1, [1, 99])], []⟩
            [((1 : Int), evWitness)]) id = some e'
          ∧ e'.feasible_precedessors = some (ids.map (resolveRef [((1 : Int), evWitness)])))
      ∧ (∀ eid, ((lookupEvent [((1 : Int), evWitness)] eid).isSome = true →
          resolveRef [((1 : Int), evWitness)] eid = .event eid)
        ∧ (lookupEvent [((1 : Int), evWitness)] eid = Option.none →
          resolveRef [((1 : Int), evWitness)] eid = .ref eid))) :=
  ⟨by decide, by decide,
   link_events_resolution ⟨[(1, [1, 99])], []⟩ [((1 : Int), evWitness)] (by decide) (by decide)⟩

end Mela

